import Mathlib

/-!
Verification model of `quadtree.h` (namespace `nc`), a header-only 2D quadtree
over axis-aligned bounding boxes.

Embedding conventions:
* The numeric template parameter `T` is instantiated with `Int` (a valid
  instantiation: it supports `<`, `+`, division by two, `min`, `max`).
  C++ integer division truncates toward zero, so `set_center` uses `Int.tdiv`.
* The per-node capacity template parameter `_Capacity` becomes an explicit
  `Nat` argument `C` of the operations that need it.
* The C++ node keeps a `has_children` flag and a child vector that the code
  updates in lockstep (`split` sets both, `merge` clears both, nothing else
  touches them); the model stores the four children as an
  `Option (QuadTree × ...)` and `has_children` reads `Option.isSome`.
* The `root` back-pointer exists only to let `resolve_max_bounds` walk to the
  top of the tree recomputing each ancestor's `max_bounds`.  The functional
  model performs exactly that recomputation in the recursion frames of
  `insert`/`remove` on the way back up (each frame applies the single-node
  `resolve_max_bounds` after a successful child operation), which visits the
  same nodes in the same bottom-up order.
* `max_bounds` is uninitialized in C++ until the first `resolve_max_bounds`;
  the model initializes it to the node's own `bounds`.  Every property proved
  below that involves `max_bounds` only uses facts (such as
  `max_bounds ⊇ bounds` after a resolve) that hold in the C++ code for every
  node that has been resolved, which is every node a proof touches.
* `insert` throws `std::out_of_range` when a full node's four children all
  reject the object; the model returns `InsRes.fatal` carrying the tree as
  mutated up to the throw.
* `remove` can fall off the end of the C++ function without a `return`
  (bounds intersect, no slot matched, no children): undefined behavior,
  modelled as `none`.
* The opaque `void* user_data` payload is modelled as a `Nat`.
-/

namespace QT

/-- Model of `nc::QuadTreeAABB<T>` at `T = Int`: edges, center, dimensions. -/
structure QuadTreeAABB where
  left : Int
  top : Int
  right : Int
  bottom : Int
  x : Int
  y : Int
  width : Int
  height : Int
deriving DecidableEq, Repr

namespace QuadTreeAABB

/-- The source's `set_dimensions` (it assigns `width = bottom - top` and
`height = right - left`, with the two swapped; kept verbatim). -/
def set_dimensions (a : QuadTreeAABB) : QuadTreeAABB :=
  { a with width := a.bottom - a.top, height := a.right - a.left }

/-- The source's `set_center`: `x = (left+right)/2`, `y = (top+bottom)/2` with C++
truncating integer division. -/
def set_center (a : QuadTreeAABB) : QuadTreeAABB :=
  { a with x := Int.tdiv (a.left + a.right) 2, y := Int.tdiv (a.top + a.bottom) 2 }

/-- Validity check `verify`: valid iff `left < right && top < bottom`. -/
def verify (a : QuadTreeAABB) : Bool :=
  decide (a.left < a.right) && decide (a.top < a.bottom)

/-- Intersection test `intersects`: strict-inequality overlap test. -/
def intersects (a b : QuadTreeAABB) : Bool :=
  decide (a.left < b.right) && decide (a.right > b.left) &&
  decide (a.top < b.bottom) && decide (a.bottom > b.top)

/-- Point containment `contains`: strict (boundary-exclusive). -/
def contains (a : QuadTreeAABB) (px py : Int) : Bool :=
  decide (px > a.left) && decide (px < a.right) &&
  decide (py > a.top) && decide (py < a.bottom)

end QuadTreeAABB

/-- Model of `nc::QuadTreeObject<T>` at `T = Int`; `user_data : void*` is opaque,
modelled as a `Nat`. -/
structure QuadTreeObject where
  bounds : QuadTreeAABB
  user_data : Nat
  removed : Bool
  id : Nat
deriving DecidableEq, Repr

/-- Model of a `nc::QuadTree<T, _Capacity>` node: static `bounds`, cached `max_bounds`,
live-slot counter `object_count`, the slot vector `objects` (length
`_Capacity`), the optional four children (top-left, top-right, bottom-right,
bottom-left), and the `level` field. -/
inductive QuadTree : Type where
  | mk (bounds max_bounds : QuadTreeAABB) (object_count : Nat)
       (objects : List QuadTreeObject) (level : Nat)
       (children : Option (QuadTree × QuadTree × QuadTree × QuadTree))
deriving Repr

namespace QuadTree

def bounds : QuadTree → QuadTreeAABB
  | .mk b _ _ _ _ _ => b

def max_bounds : QuadTree → QuadTreeAABB
  | .mk _ mb _ _ _ _ => mb

def object_count : QuadTree → Nat
  | .mk _ _ n _ _ _ => n

def objects : QuadTree → List QuadTreeObject
  | .mk _ _ _ os _ _ => os

def level : QuadTree → Nat
  | .mk _ _ _ _ l _ => l

def children : QuadTree → Option (QuadTree × QuadTree × QuadTree × QuadTree)
  | .mk _ _ _ _ _ cs => cs

/-- The `has_children` flag: kept in lockstep with the child vector in the
source, read off the children here. -/
def has_children (t : QuadTree) : Bool := t.children.isSome

def setMaxBounds : QuadTree → QuadTreeAABB → QuadTree
  | .mk b _ n os l cs, mb => .mk b mb n os l cs

def setObjects : QuadTree → List QuadTreeObject → QuadTree
  | .mk b mb n _ l cs, os => .mk b mb n os l cs

def setCount : QuadTree → Nat → QuadTree
  | .mk b mb _ os l cs, n => .mk b mb n os l cs

def setChildren : QuadTree → Option (QuadTree × QuadTree × QuadTree × QuadTree) → QuadTree
  | .mk b mb n os l _, cs => .mk b mb n os l cs

def setLevel : QuadTree → Nat → QuadTree
  | .mk b mb n os _ cs, l => .mk b mb n os l cs

/-- A freshly default-constructed slot: `removed = true`, `id = 0`; the C++
leaves `bounds`/`user_data` indeterminate, the model zeroes them (they are
never read while `removed` is set, and insertion overwrites them first). -/
def emptySlot : QuadTreeObject :=
  { bounds := ⟨0, 0, 0, 0, 0, 0, 0, 0⟩, user_data := 0, removed := true, id := 0 }

/-- The `QuadTree(const QuadTreeAABB&)` constructor: `level = 0`, `_Capacity`
tombstoned slots, no children; `max_bounds` initialized to `bounds` (see the
header comment). -/
def fresh (C : Nat) (b : QuadTreeAABB) : QuadTree :=
  .mk b b 0 (List.replicate C emptySlot) 0 none

/-- Source `get_total_objects`: own counter plus the recursive sums over the four
children when subdivided. -/
def get_total_objects : QuadTree → Nat
  | .mk _ _ n _ _ none => n
  | .mk _ _ n _ _ (some (c0, c1, c2, c3)) =>
      n + (c0.get_total_objects + c1.get_total_objects +
           c2.get_total_objects + c3.get_total_objects)

/-- One quadrant rectangle as `split` builds it: the four edges are assigned,
then `set_center()` and `set_dimensions()` recompute the derived fields. -/
def mkChildAABB (l t r b : Int) : QuadTreeAABB :=
  QuadTreeAABB.set_dimensions (QuadTreeAABB.set_center ⟨l, t, r, b, 0, 0, 0, 0⟩)

/-- Source `split`: when not yet subdivided, create the four children
top-left, top-right, bottom-right, bottom-left, cut at the parent's stored
center `(bounds.x, bounds.y)`, each with `level = parent.level + 1`; no-op
otherwise.  The child's `root` back-pointer is handled as described in the
header comment. -/
def split (C : Nat) (t : QuadTree) : QuadTree :=
  match t.children with
  | some _ => t
  | none =>
      let b := t.bounds
      let tl := (fresh C (mkChildAABB b.left b.top b.x b.y)).setLevel (t.level + 1)
      let tr := (fresh C (mkChildAABB b.x b.top b.right b.y)).setLevel (t.level + 1)
      let br := (fresh C (mkChildAABB b.x b.y b.right b.bottom)).setLevel (t.level + 1)
      let bl := (fresh C (mkChildAABB b.left b.y b.x b.bottom)).setLevel (t.level + 1)
      t.setChildren (some (tl, tr, br, bl))

/-- Source `merge`: discard the child array and clear `has_children`.  The
source first calls `merge` on each child; in the pure model the children are
discarded wholesale, so those recursive calls have no observable effect. -/
def merge (t : QuadTree) : QuadTree :=
  match t.children with
  | some _ => t.setChildren none
  | none => t

/-- Source `remove_empty_nodes`: post-order over the children, then merge
this node if its whole subtree holds no live object. -/
def remove_empty_nodes : QuadTree → QuadTree
  | .mk b mb n os l none => .mk b mb n os l none
  | .mk b mb n os l (some (c0, c1, c2, c3)) =>
      let t' := QuadTree.mk b mb n os l
        (some (c0.remove_empty_nodes, c1.remove_empty_nodes,
               c2.remove_empty_nodes, c3.remove_empty_nodes))
      if t'.get_total_objects < 1 then t'.merge else t'

/-- One iteration of the slot loop in `resolve_max_bounds`: a live slot
extends the running `max_bounds` by `min`/`max` against the node's *static*
`bounds` (the source reads `bounds.left` etc. here, not `max_bounds.left`),
and an invalid result falls back to `bounds`. -/
def extendByObject (bounds mb : QuadTreeAABB) (o : QuadTreeObject) : QuadTreeAABB :=
  if o.removed then mb
  else
    let m := { mb with left := min bounds.left o.bounds.left,
                       top := min bounds.top o.bounds.top,
                       right := max bounds.right o.bounds.right,
                       bottom := max bounds.bottom o.bounds.bottom }
    if m.verify then m else bounds

/-- One iteration of the child loop in `resolve_max_bounds`: extend the
running `max_bounds` by a child's cached `max_bounds`, falling back to
`bounds` when invalid. -/
def extendByChild (bounds mb cmb : QuadTreeAABB) : QuadTreeAABB :=
  let m := { mb with left := min mb.left cmb.left,
                     top := min mb.top cmb.top,
                     right := max mb.right cmb.right,
                     bottom := max mb.bottom cmb.bottom }
  if m.verify then m else bounds

/-- Source `resolve_max_bounds`, single-node part: start from `bounds`, fold
the slot loop, then the child loop.  The source then follows the `root`
back-pointer to recompute each ancestor; the model performs those ancestor
recomputations in the recursion frames of `insert`/`remove` (see the header
comment). -/
def resolve_max_bounds (t : QuadTree) : QuadTree :=
  let mb1 := t.objects.foldl (extendByObject t.bounds) t.bounds
  let mb2 := match t.children with
    | none => mb1
    | some (c0, c1, c2, c3) =>
        extendByChild t.bounds
          (extendByChild t.bounds
            (extendByChild t.bounds
              (extendByChild t.bounds mb1 c0.max_bounds)
              c1.max_bounds)
            c2.max_bounds)
          c3.max_bounds
  t.setMaxBounds mb2

/-- The slot-placement loop of `insert`: find the first tombstoned slot and
overwrite its `bounds`, `user_data`, `id`, clearing `removed`; `none` when
every slot is live (the loop falls through). -/
def placeFirstFree : List QuadTreeObject → QuadTreeObject → Option (List QuadTreeObject)
  | [], _ => none
  | s :: rest, o =>
      if s.removed then
        some ({ bounds := o.bounds, user_data := o.user_data,
                removed := false, id := o.id } :: rest)
      else (placeFirstFree rest o).map (s :: ·)

/-- The slot-scan loop of `remove`: tombstone the first live slot whose `id`
matches; `none` when no slot matches. -/
def tombstoneFirst : List QuadTreeObject → Nat → Option (List QuadTreeObject)
  | [], _ => none
  | s :: rest, k =>
      if !s.removed && s.id == k then some ({ s with removed := true } :: rest)
      else (tombstoneFirst rest k).map (s :: ·)

/-- Outcome of `insert`: a normal boolean return with the resulting tree, or
the `std::out_of_range` throw (`fatal`) carrying the tree as mutated up to
the throw point. -/
inductive InsRes : Type where
  | ok (accepted : Bool) (t : QuadTree)
  | fatal (t : QuadTree)
deriving Repr

/-- The tree carried by an `InsRes`. -/
def resultTree : InsRes → QuadTree
  | .ok _ t => t
  | .fatal t => t

/-- Insertion into a just-created (by `split`) child: the child is an empty
leaf, so the source's `insert` on it reduces to the guard plus the
slot-placement branch, with no further recursion — this is that reduction,
used by `insert` for the freshly split case.  For capacity `0` the source
would split and recurse forever; the model returns a reject there and is
only ever used with `0 < C`. -/
def insertFresh (C : Nat) (cb : QuadTreeAABB) (lvl : Nat) (o : QuadTreeObject) :
    Bool × QuadTree :=
  let t := (fresh C cb).setLevel lvl
  if cb.intersects o.bounds then
    if C = 0 then (false, t)
    else
      match placeFirstFree t.objects o with
      | some os' => (true, (resolve_max_bounds (t.setObjects os')).setCount 1)
      | none => (false, t)
  else (false, t)

/-- Source `insert`.  Guard on `bounds.intersects`; below capacity, place
into the first free slot, resolve the aggregate bounds (the ancestor walk
happens in the caller frames) and bump `object_count`; at capacity, split if
needed and offer the object to the four children in order, throwing
(`fatal`) when all four reject it. -/
def insert (C : Nat) : QuadTree → QuadTreeObject → InsRes
  | .mk b mb n os l cs, o =>
    if b.intersects o.bounds then
      if C ≤ n then
        match cs with
        | some (c0, c1, c2, c3) =>
            match insert C c0 o with
            | .ok true c0' =>
                .ok true (resolve_max_bounds (.mk b mb n os l (some (c0', c1, c2, c3))))
            | .fatal c0' => .fatal (.mk b mb n os l (some (c0', c1, c2, c3)))
            | .ok false c0' =>
              match insert C c1 o with
              | .ok true c1' =>
                  .ok true (resolve_max_bounds (.mk b mb n os l (some (c0', c1', c2, c3))))
              | .fatal c1' => .fatal (.mk b mb n os l (some (c0', c1', c2, c3)))
              | .ok false c1' =>
                match insert C c2 o with
                | .ok true c2' =>
                    .ok true (resolve_max_bounds (.mk b mb n os l (some (c0', c1', c2', c3))))
                | .fatal c2' => .fatal (.mk b mb n os l (some (c0', c1', c2', c3)))
                | .ok false c2' =>
                  match insert C c3 o with
                  | .ok true c3' =>
                      .ok true (resolve_max_bounds (.mk b mb n os l (some (c0', c1', c2', c3'))))
                  | .fatal c3' => .fatal (.mk b mb n os l (some (c0', c1', c2', c3')))
                  | .ok false c3' =>
                      .fatal (.mk b mb n os l (some (c0', c1', c2', c3')))
        | none =>
            let t0 := split C (.mk b mb n os l none)
            match t0.children with
            | some (f0, f1, f2, f3) =>
                match insertFresh C f0.bounds (l + 1) o with
                | (true, f0') =>
                    .ok true (resolve_max_bounds (.mk b mb n os l (some (f0', f1, f2, f3))))
                | (false, _) =>
                  match insertFresh C f1.bounds (l + 1) o with
                  | (true, f1') =>
                      .ok true (resolve_max_bounds (.mk b mb n os l (some (f0, f1', f2, f3))))
                  | (false, _) =>
                    match insertFresh C f2.bounds (l + 1) o with
                    | (true, f2') =>
                        .ok true (resolve_max_bounds (.mk b mb n os l (some (f0, f1, f2', f3))))
                    | (false, _) =>
                      match insertFresh C f3.bounds (l + 1) o with
                      | (true, f3') =>
                          .ok true (resolve_max_bounds (.mk b mb n os l (some (f0, f1, f2, f3'))))
                      | (false, _) =>
                          .fatal (.mk b mb n os l (some (f0, f1, f2, f3)))
            | none => .ok false (.mk b mb n os l none)
      else
        match placeFirstFree os o with
        | some os' => .ok true ((resolve_max_bounds (.mk b mb n os' l cs)).setCount (n + 1))
        | none => .ok false (.mk b mb n os l cs)
    else .ok false (.mk b mb n os l cs)

/-- Source `remove`.  Guard on `bounds.intersects` (a miss returns `false`);
when `object_count > 0` (the `m + 1` pattern) and the slot scan finds a live
matching `id`, tombstone it, decrement the counter, prune empty descendants
and resolve the aggregate bounds; otherwise try the children in order.  The path "bounds intersect, no slot matched, no
children" falls off the end of the C++ function with no `return`: undefined
behavior, modelled as `none`. -/
def remove : QuadTree → QuadTreeObject → Option (Bool × QuadTree)
  | .mk b mb n os l cs, o =>
    if b.intersects o.bounds then
      match n, tombstoneFirst os o.id with
      | m + 1, some os' =>
          some (true, resolve_max_bounds
            (remove_empty_nodes (.mk b mb m os' l cs)))
      | _, _ =>
        match cs with
        | some (c0, c1, c2, c3) =>
            match remove c0 o with
            | none => none
            | some (true, c0') =>
                some (true, resolve_max_bounds (.mk b mb n os l (some (c0', c1, c2, c3))))
            | some (false, c0') =>
              match remove c1 o with
              | none => none
              | some (true, c1') =>
                  some (true, resolve_max_bounds (.mk b mb n os l (some (c0', c1', c2, c3))))
              | some (false, c1') =>
                match remove c2 o with
                | none => none
                | some (true, c2') =>
                    some (true, resolve_max_bounds (.mk b mb n os l (some (c0', c1', c2', c3))))
                | some (false, c2') =>
                  match remove c3 o with
                  | none => none
                  | some (true, c3') =>
                      some (true, resolve_max_bounds (.mk b mb n os l (some (c0', c1', c2', c3'))))
                  | some (false, c3') =>
                      some (false, .mk b mb n os l (some (c0', c1', c2', c3')))
        | none => none
    else some (false, .mk b mb n os l cs)

/-- Source `query`, buffer overload: prune on the cached aggregate
`max_bounds` (or not at all when `_BoundChecks` is off), recurse into the
children first, then append the live slots that intersect the region.  The
buffer writes at `_Length++` are modelled as the produced list. -/
def queryBuf : QuadTree → QuadTreeAABB → Bool → List QuadTreeObject
  | .mk _ mb n os _ cs, r, checks =>
    if mb.intersects r || !checks then
      (match cs with
       | some (c0, c1, c2, c3) =>
           queryBuf c0 r checks ++ queryBuf c1 r checks ++
           queryBuf c2 r checks ++ queryBuf c3 r checks
       | none => []) ++
      (if n < 1 then [] else os.filter fun s => !s.removed && s.bounds.intersects r)
    else []

/-- Source `query`, vector overload: identical traversal but the prune test
reads the *static* `bounds`, not `max_bounds`. -/
def queryVec : QuadTree → QuadTreeAABB → Bool → List QuadTreeObject
  | .mk b _ n os _ cs, r, checks =>
    if b.intersects r || !checks then
      (match cs with
       | some (c0, c1, c2, c3) =>
           queryVec c0 r checks ++ queryVec c1 r checks ++
           queryVec c2 r checks ++ queryVec c3 r checks
       | none => []) ++
      (if n < 1 then [] else os.filter fun s => !s.removed && s.bounds.intersects r)
    else []

/-- All live slot objects of a subtree, listed in the traversal order the
queries use (the four children first, then the node's own slots). -/
def liveSlots : QuadTree → List QuadTreeObject
  | .mk _ _ _ os _ none => os.filter fun s => !s.removed
  | .mk _ _ _ os _ (some (c0, c1, c2, c3)) =>
      liveSlots c0 ++ liveSlots c1 ++ liveSlots c2 ++ liveSlots c3 ++
      (os.filter fun s => !s.removed)

/-- Number of live slots in the whole subtree. -/
def numLive (t : QuadTree) : Nat := (liveSlots t).length

/-- Number of entries with a given id in a list of stored objects. -/
def countId (xs : List QuadTreeObject) (k : Nat) : Nat :=
  (xs.filter fun s => s.id == k).length

/-- Number of live slots in the subtree whose id is `k`. -/
def liveIdCount (t : QuadTree) (k : Nat) : Nat := countId (liveSlots t) k

/-- Structural well-formedness every tree reachable by the public operations
enjoys: each node's slot vector has length `_Capacity` and `object_count`
equals its number of live slots. -/
def Inv (C : Nat) : QuadTree → Bool
  | .mk _ _ n os _ cs =>
    (os.length == C) && (n == (os.filter fun s => !s.removed).length) &&
    match cs with
    | none => true
    | some (c0, c1, c2, c3) => Inv C c0 && Inv C c1 && Inv C c2 && Inv C c3

/-- Rectangle containment (non-strict, edge-inclusive): does `big` contain
`small`? -/
def containsAABB (big small : QuadTreeAABB) : Bool :=
  decide (big.left ≤ small.left) && decide (big.top ≤ small.top) &&
  decide (small.right ≤ big.right) && decide (small.bottom ≤ big.bottom)

/-- The node's children as a list (empty for a leaf). -/
def childrenList (t : QuadTree) : List QuadTree :=
  match t.children with
  | none => []
  | some (c0, c1, c2, c3) => [c0, c1, c2, c3]

/-- Closed (edge-inclusive) membership of a point in a rectangle. -/
def inClosed (a : QuadTreeAABB) (px py : Int) : Prop :=
  a.left ≤ px ∧ px ≤ a.right ∧ a.top ≤ py ∧ py ≤ a.bottom

/-- Signed area of a rectangle from its edges. -/
def area (a : QuadTreeAABB) : Int := (a.right - a.left) * (a.bottom - a.top)

/-- A public mutating operation of the tree. -/
inductive Op : Type where
  | ins (o : QuadTreeObject)
  | rem (o : QuadTreeObject)

/-- Run a sequence of operations, requiring every one to succeed (`insert`
returning `true`, `remove` returning `true`); `none` as soon as one fails,
throws, or hits the undefined-behavior path. -/
def applyOps (C : Nat) : QuadTree → List Op → Option QuadTree
  | t, [] => some t
  | t, .ins o :: rest =>
      match insert C t o with
      | .ok true t' => applyOps C t' rest
      | _ => none
  | t, .rem o :: rest =>
      match remove t o with
      | some (true, t') => applyOps C t' rest
      | _ => none

/-- Number of insertions in an operation sequence. -/
def numIns : List Op → Nat
  | [] => 0
  | .ins _ :: rest => numIns rest + 1
  | .rem _ :: rest => numIns rest

/-- Number of removals in an operation sequence. -/
def numRem : List Op → Nat
  | [] => 0
  | .ins _ :: rest => numRem rest
  | .rem _ :: rest => numRem rest + 1

/-- Run a sequence of insertions, all required to succeed. -/
def insertAll (C : Nat) (t : QuadTree) (os : List QuadTreeObject) : Option QuadTree :=
  applyOps C t (os.map Op.ins)

/-- The slot record `insert` writes for an argument object: its bounds,
payload and id, with `removed` cleared. -/
def storedOf (o : QuadTreeObject) : QuadTreeObject :=
  { bounds := o.bounds, user_data := o.user_data, removed := false, id := o.id }

/-- Structural induction over the quadtree with one hypothesis per shape. -/
def my_ind {P : QuadTree → Prop}
    (hleaf : ∀ b mb n os l, P (.mk b mb n os l none))
    (hnode : ∀ b mb n os l c0 c1 c2 c3, P c0 → P c1 → P c2 → P c3 →
      P (.mk b mb n os l (some (c0, c1, c2, c3)))) :
    ∀ t, P t
  | .mk b mb n os l none => hleaf b mb n os l
  | .mk b mb n os l (some (c0, c1, c2, c3)) =>
      hnode b mb n os l c0 c1 c2 c3
        (my_ind hleaf hnode c0) (my_ind hleaf hnode c1)
        (my_ind hleaf hnode c2) (my_ind hleaf hnode c3)

/-! ## Concrete fixtures used by the claim witnesses and counterexamples -/

def rootAABB : QuadTreeAABB := ⟨0, 0, 100, 100, 50, 50, 100, 100⟩

def mkObj (l t r b : Int) (k : Nat) : QuadTreeObject :=
  { bounds := ⟨l, t, r, b, 0, 0, 0, 0⟩, user_data := 0, removed := false, id := k }

def obj1 : QuadTreeObject := mkObj 10 10 20 20 1
def obj2 : QuadTreeObject := mkObj 30 30 40 40 2
def obj3 : QuadTreeObject := mkObj 60 60 70 70 3
def objSpill : QuadTreeObject := mkObj (-10) 10 5 20 7
def objFar : QuadTreeObject := mkObj 200 200 300 300 8
def regionSpill : QuadTreeAABB := ⟨-9, 11, -1, 19, 0, 0, 0, 0⟩
def rootTree : QuadTree := fresh 2 rootAABB
def farNode : QuadTree := fresh 1 ⟨200, 200, 300, 300, 250, 250, 100, 100⟩
def fullNode : QuadTree :=
  .mk rootAABB rootAABB 1 [mkObj 10 10 20 20 9] 0 (some (farNode, farNode, farNode, farNode))
def rootTree1 : QuadTree := fresh 1 rootAABB

def resultAccepted : InsRes → Bool
  | .ok a _ => a
  | .fatal _ => false

def removeSucceeded : Option (Bool × QuadTree) → Bool
  | some (true, _) => true
  | _ => false

/-! ## Basic facts about the geometry primitives -/

@[simp] theorem bounds_mk (b mb : QuadTreeAABB) (n : Nat) (os : List QuadTreeObject)
    (l : Nat) (cs : Option (QuadTree × QuadTree × QuadTree × QuadTree)) :
    (QuadTree.mk b mb n os l cs).bounds = b := rfl

@[simp] theorem max_bounds_mk (b mb : QuadTreeAABB) (n : Nat) (os : List QuadTreeObject)
    (l : Nat) (cs : Option (QuadTree × QuadTree × QuadTree × QuadTree)) :
    (QuadTree.mk b mb n os l cs).max_bounds = mb := rfl

@[simp] theorem object_count_mk (b mb : QuadTreeAABB) (n : Nat) (os : List QuadTreeObject)
    (l : Nat) (cs : Option (QuadTree × QuadTree × QuadTree × QuadTree)) :
    (QuadTree.mk b mb n os l cs).object_count = n := rfl

@[simp] theorem objects_mk (b mb : QuadTreeAABB) (n : Nat) (os : List QuadTreeObject)
    (l : Nat) (cs : Option (QuadTree × QuadTree × QuadTree × QuadTree)) :
    (QuadTree.mk b mb n os l cs).objects = os := rfl

@[simp] theorem level_mk (b mb : QuadTreeAABB) (n : Nat) (os : List QuadTreeObject)
    (l : Nat) (cs : Option (QuadTree × QuadTree × QuadTree × QuadTree)) :
    (QuadTree.mk b mb n os l cs).level = l := rfl

@[simp] theorem children_mk (b mb : QuadTreeAABB) (n : Nat) (os : List QuadTreeObject)
    (l : Nat) (cs : Option (QuadTree × QuadTree × QuadTree × QuadTree)) :
    (QuadTree.mk b mb n os l cs).children = cs := rfl

theorem containsAABB_refl (a : QuadTreeAABB) : containsAABB a a = true := by
  simp [containsAABB]

/-- If a rectangle intersects an object's bounds and a region contains those
bounds, the rectangle intersects the region. -/
theorem intersects_of_intersects_contains {a ob r : QuadTreeAABB}
    (h1 : a.intersects ob = true) (h2 : containsAABB r ob = true) :
    a.intersects r = true := by
  simp only [QuadTreeAABB.intersects, containsAABB, Bool.and_eq_true,
    decide_eq_true_eq] at *
  omega

/-- Valid bounds intersect any region containing them. -/
theorem intersects_of_verify_contains {ob r : QuadTreeAABB}
    (hv : ob.verify = true) (h2 : containsAABB r ob = true) :
    ob.intersects r = true := by
  simp only [QuadTreeAABB.verify, QuadTreeAABB.intersects, containsAABB,
    Bool.and_eq_true, decide_eq_true_eq] at *
  omega

/-- Enlarging the left rectangle preserves intersection. -/
theorem intersects_of_contains_intersects {mb a r : QuadTreeAABB}
    (hc : containsAABB mb a = true) (h : a.intersects r = true) :
    mb.intersects r = true := by
  simp only [QuadTreeAABB.intersects, containsAABB, Bool.and_eq_true,
    decide_eq_true_eq] at *
  omega

/-! ## The aggregate-bounds computation -/

theorem containsAABB_extendByObject (b m : QuadTreeAABB) (o : QuadTreeObject)
    (h : containsAABB m b = true) : containsAABB (extendByObject b m o) b = true := by
  unfold extendByObject
  split
  · exact h
  · dsimp only
    split
    · simp only [containsAABB, Bool.and_eq_true, decide_eq_true_eq] at *
      omega
    · exact containsAABB_refl b

theorem containsAABB_foldl_extendByObject (b : QuadTreeAABB)
    (os : List QuadTreeObject) :
    ∀ m, containsAABB m b = true →
      containsAABB (os.foldl (extendByObject b) m) b = true := by
  induction os with
  | nil => intro m hm; simpa using hm
  | cons hd tl ih =>
      intro m hm
      exact ih _ (containsAABB_extendByObject b m hd hm)

theorem containsAABB_extendByChild (b m cmb : QuadTreeAABB)
    (h : containsAABB m b = true) : containsAABB (extendByChild b m cmb) b = true := by
  unfold extendByChild
  dsimp only
  split
  · simp only [containsAABB, Bool.and_eq_true, decide_eq_true_eq] at *
    omega
  · exact containsAABB_refl b

/-- After a (single-node) resolve, the cached aggregate bounds contain the
node's static bounds. -/
theorem resolve_mb_contains (t : QuadTree) :
    containsAABB (resolve_max_bounds t).max_bounds t.bounds = true := by
  obtain ⟨b, mb, n, os, l, cs⟩ := t
  unfold resolve_max_bounds
  rcases cs with _ | ⟨⟨c0, c1, c2, c3⟩⟩ <;>
    simp only [children_mk, bounds_mk, objects_mk, setMaxBounds, max_bounds_mk]
  · exact containsAABB_foldl_extendByObject _ _ _ (containsAABB_refl b)
  · exact containsAABB_extendByChild _ _ _
      (containsAABB_extendByChild _ _ _
        (containsAABB_extendByChild _ _ _
          (containsAABB_extendByChild _ _ _
            (containsAABB_foldl_extendByObject _ _ _ (containsAABB_refl b)))))

theorem resolve_bounds (t : QuadTree) : (resolve_max_bounds t).bounds = t.bounds := by
  obtain ⟨b, mb, n, os, l, cs⟩ := t; rfl

theorem resolve_objects (t : QuadTree) : (resolve_max_bounds t).objects = t.objects := by
  obtain ⟨b, mb, n, os, l, cs⟩ := t; rfl

theorem resolve_object_count (t : QuadTree) :
    (resolve_max_bounds t).object_count = t.object_count := by
  obtain ⟨b, mb, n, os, l, cs⟩ := t; rfl

theorem resolve_children (t : QuadTree) :
    (resolve_max_bounds t).children = t.children := by
  obtain ⟨b, mb, n, os, l, cs⟩ := t; rfl

/-! ## Slot-list lemmas -/

theorem placeFirstFree_length {os : List QuadTreeObject} {o : QuadTreeObject}
    {os' : List QuadTreeObject} (h : placeFirstFree os o = some os') :
    os'.length = os.length := by
  induction os generalizing os' with
  | nil => simp [placeFirstFree] at h
  | cons s rest ih =>
      unfold placeFirstFree at h
      split at h
      · obtain rfl := Option.some.inj h
        simp
      · rcases hrec : placeFirstFree rest o with _ | os₀ <;> rw [hrec] at h
        · simp at h
        · obtain rfl := Option.some.inj h
          simp [ih hrec]

theorem placeFirstFree_filter_perm {os : List QuadTreeObject} {o : QuadTreeObject}
    {os' : List QuadTreeObject} (h : placeFirstFree os o = some os') :
    (os'.filter fun s => !s.removed).Perm
      (storedOf o :: os.filter fun s => !s.removed) := by
  induction os generalizing os' with
  | nil => simp [placeFirstFree] at h
  | cons s rest ih =>
      unfold placeFirstFree at h
      split at h
      · obtain rfl := Option.some.inj h
        rename_i hrem
        simp [List.filter_cons, hrem, storedOf]
      · rcases hrec : placeFirstFree rest o with _ | os₀ <;> rw [hrec] at h
        · simp at h
        · obtain rfl := Option.some.inj h
          rename_i hrem
          have hs : s.removed = false := by
            cases hr : s.removed
            · rfl
            · exact absurd hr hrem
          simp only [List.filter_cons, hs, Bool.not_false, if_pos rfl]
          exact ((ih hrec).cons s).trans (List.Perm.swap _ _ _)

theorem tombstoneFirst_length {os : List QuadTreeObject} {k : Nat}
    {os' : List QuadTreeObject} (h : tombstoneFirst os k = some os') :
    os'.length = os.length := by
  induction os generalizing os' with
  | nil => simp [tombstoneFirst] at h
  | cons s rest ih =>
      unfold tombstoneFirst at h
      split at h
      · obtain rfl := Option.some.inj h
        simp
      · rcases hrec : tombstoneFirst rest k with _ | os₀ <;> rw [hrec] at h
        · simp at h
        · obtain rfl := Option.some.inj h
          simp [ih hrec]

theorem tombstoneFirst_perm {os : List QuadTreeObject} {k : Nat}
    {os' : List QuadTreeObject} (h : tombstoneFirst os k = some os') :
    ∃ s : QuadTreeObject, s.removed = false ∧ s.id = k ∧
      (os.filter fun x => !x.removed).Perm (s :: os'.filter fun x => !x.removed) := by
  induction os generalizing os' with
  | nil => simp [tombstoneFirst] at h
  | cons s rest ih =>
      unfold tombstoneFirst at h
      split at h
      · obtain rfl := Option.some.inj h
        rename_i hcond
        simp only [Bool.and_eq_true, Bool.not_eq_eq_eq_not, Bool.not_true,
          beq_iff_eq] at hcond
        refine ⟨s, hcond.1, hcond.2, ?_⟩
        simp [List.filter_cons, hcond.1]
      · rcases hrec : tombstoneFirst rest k with _ | os₀ <;> rw [hrec] at h
        · simp at h
        · obtain rfl := Option.some.inj h
          obtain ⟨sf, hsf1, hsf2, hperm⟩ := ih hrec
          refine ⟨sf, hsf1, hsf2, ?_⟩
          by_cases hr : s.removed = true
          · simpa [List.filter_cons, hr] using hperm
          · have hr' : s.removed = false := by
              cases hq : s.removed
              · rfl
              · exact absurd hq hr
            simp only [List.filter_cons, hr', Bool.not_false, if_pos rfl]
            exact (hperm.cons s).trans (List.Perm.swap _ _ _)

/-! ## Live-slot bookkeeping -/

theorem countId_append (a b : List QuadTreeObject) (k : Nat) :
    countId (a ++ b) k = countId a k + countId b k := by
  simp [countId, List.filter_append]

theorem countId_cons (s : QuadTreeObject) (xs : List QuadTreeObject) (k : Nat) :
    countId (s :: xs) k = (if s.id = k then 1 else 0) + countId xs k := by
  simp only [countId, List.filter_cons]
  split <;> rename_i hs <;> simp only [beq_iff_eq] at hs <;> simp [hs]
  · omega

theorem countId_perm {a b : List QuadTreeObject} (h : a.Perm b) (k : Nat) :
    countId a k = countId b k := by
  simp [countId, (h.filter _).length_eq]

theorem countId_filter_le (p : QuadTreeObject → Bool) (xs : List QuadTreeObject)
    (k : Nat) : countId (xs.filter p) k ≤ countId xs k := by
  simp only [countId]
  exact ((List.filter_sublist xs).filter _).length_le

@[simp] theorem liveSlots_mk_none (b mb : QuadTreeAABB) (n : Nat)
    (os : List QuadTreeObject) (l : Nat) :
    liveSlots (.mk b mb n os l none) = os.filter fun s => !s.removed := rfl

@[simp] theorem liveSlots_mk_some (b mb : QuadTreeAABB) (n : Nat)
    (os : List QuadTreeObject) (l : Nat) (c0 c1 c2 c3 : QuadTree) :
    liveSlots (.mk b mb n os l (some (c0, c1, c2, c3))) =
      liveSlots c0 ++ liveSlots c1 ++ liveSlots c2 ++ liveSlots c3 ++
      (os.filter fun s => !s.removed) := rfl

theorem liveSlots_resolve (t : QuadTree) :
    liveSlots (resolve_max_bounds t) = liveSlots t := by
  obtain ⟨b, mb, n, os, l, cs⟩ := t
  rcases cs with _ | ⟨⟨c0, c1, c2, c3⟩⟩ <;> rfl

theorem liveSlots_fresh (C : Nat) (b : QuadTreeAABB) :
    liveSlots (fresh C b) = [] := by
  simp [fresh, List.filter_replicate, emptySlot]

/-! ## The structural invariant -/

theorem Inv_leaf_iff (C : Nat) (b mb : QuadTreeAABB) (n : Nat)
    (os : List QuadTreeObject) (l : Nat) :
    Inv C (.mk b mb n os l none) = true ↔
      os.length = C ∧ n = (os.filter fun s => !s.removed).length := by
  simp [Inv]

theorem Inv_node_iff (C : Nat) (b mb : QuadTreeAABB) (n : Nat)
    (os : List QuadTreeObject) (l : Nat) (c0 c1 c2 c3 : QuadTree) :
    Inv C (.mk b mb n os l (some (c0, c1, c2, c3))) = true ↔
      (os.length = C ∧ n = (os.filter fun s => !s.removed).length) ∧
      Inv C c0 = true ∧ Inv C c1 = true ∧ Inv C c2 = true ∧ Inv C c3 = true := by
  simp [Inv]
  tauto

theorem Inv_fresh (C : Nat) (b : QuadTreeAABB) : Inv C (fresh C b) = true := by
  rw [fresh, Inv_leaf_iff]
  simp [List.filter_replicate, emptySlot]

theorem Inv_resolve (C : Nat) (t : QuadTree) (h : Inv C t = true) :
    Inv C (resolve_max_bounds t) = true := by
  obtain ⟨b, mb, n, os, l, cs⟩ := t
  rcases cs with _ | ⟨⟨c0, c1, c2, c3⟩⟩ <;>
    simpa [resolve_max_bounds, setMaxBounds, Inv] using h

/-- Under the invariant, `get_total_objects` counts the live slots of the
subtree. -/
theorem total_eq_numLive {C : Nat} (t : QuadTree) (h : Inv C t = true) :
    get_total_objects t = numLive t := by
  induction t using my_ind with
  | hleaf b mb n os l =>
      rw [Inv_leaf_iff] at h
      simp [get_total_objects, numLive, h.2]
  | hnode b mb n os l c0 c1 c2 c3 ih0 ih1 ih2 ih3 =>
      rw [Inv_node_iff] at h
      obtain ⟨⟨hlen, hn⟩, h0, h1, h2, h3⟩ := h
      simp [get_total_objects, numLive, ih0 h0, ih1 h1, ih2 h2, ih3 h3, hn]
      omega

theorem numLive_mk_none (b mb : QuadTreeAABB) (n : Nat) (os : List QuadTreeObject)
    (l : Nat) :
    numLive (.mk b mb n os l none) = (os.filter fun s => !s.removed).length := rfl

theorem numLive_mk_some (b mb : QuadTreeAABB) (n : Nat) (os : List QuadTreeObject)
    (l : Nat) (c0 c1 c2 c3 : QuadTree) :
    numLive (.mk b mb n os l (some (c0, c1, c2, c3))) =
      numLive c0 + numLive c1 + numLive c2 + numLive c3 +
      (os.filter fun s => !s.removed).length := by
  simp [numLive]
  omega

theorem liveIdCount_mk_none (b mb : QuadTreeAABB) (n : Nat)
    (os : List QuadTreeObject) (l : Nat) (k : Nat) :
    liveIdCount (.mk b mb n os l none) k = countId (os.filter fun s => !s.removed) k := rfl

theorem liveIdCount_mk_some (b mb : QuadTreeAABB) (n : Nat)
    (os : List QuadTreeObject) (l : Nat) (c0 c1 c2 c3 : QuadTree) (k : Nat) :
    liveIdCount (.mk b mb n os l (some (c0, c1, c2, c3))) k =
      liveIdCount c0 k + liveIdCount c1 k + liveIdCount c2 k + liveIdCount c3 k +
      countId (os.filter fun s => !s.removed) k := by
  simp [liveIdCount, countId_append]
  omega

/-! ## Pruning preserves the live content -/

theorem merge_objects (t : QuadTree) : (merge t).objects = t.objects := by
  obtain ⟨b, mb, n, os, l, cs⟩ := t
  rcases cs with _ | c <;> rfl

theorem ren_bounds (t : QuadTree) : (remove_empty_nodes t).bounds = t.bounds := by
  obtain ⟨b, mb, n, os, l, cs⟩ := t
  rcases cs with _ | ⟨⟨c0, c1, c2, c3⟩⟩
  · rfl
  · unfold remove_empty_nodes
    dsimp only
    split <;> rfl

theorem ren_objects (t : QuadTree) : (remove_empty_nodes t).objects = t.objects := by
  obtain ⟨b, mb, n, os, l, cs⟩ := t
  rcases cs with _ | ⟨⟨c0, c1, c2, c3⟩⟩
  · rfl
  · unfold remove_empty_nodes
    dsimp only
    split <;> rfl

theorem ren_object_count (t : QuadTree) :
    (remove_empty_nodes t).object_count = t.object_count := by
  obtain ⟨b, mb, n, os, l, cs⟩ := t
  rcases cs with _ | ⟨⟨c0, c1, c2, c3⟩⟩
  · rfl
  · unfold remove_empty_nodes
    dsimp only
    split <;> rfl

/-- Pruning empty subtrees preserves the invariant and the exact list of
live slots (it only ever discards subtrees whose live count is zero). -/
theorem ren_spec {C : Nat} (t : QuadTree) (h : Inv C t = true) :
    Inv C (remove_empty_nodes t) = true ∧
      liveSlots (remove_empty_nodes t) = liveSlots t := by
  induction t using my_ind with
  | hleaf b mb n os l => exact ⟨h, rfl⟩
  | hnode b mb n os l c0 c1 c2 c3 ih0 ih1 ih2 ih3 =>
      rw [Inv_node_iff] at h
      obtain ⟨⟨hlen, hn⟩, h0, h1, h2, h3⟩ := h
      obtain ⟨hI0, hL0⟩ := ih0 h0
      obtain ⟨hI1, hL1⟩ := ih1 h1
      obtain ⟨hI2, hL2⟩ := ih2 h2
      obtain ⟨hI3, hL3⟩ := ih3 h3
      unfold remove_empty_nodes
      dsimp only
      have hInv' : Inv C (QuadTree.mk b mb n os l
          (some (c0.remove_empty_nodes, c1.remove_empty_nodes,
                 c2.remove_empty_nodes, c3.remove_empty_nodes))) = true := by
        rw [Inv_node_iff]; exact ⟨⟨hlen, hn⟩, hI0, hI1, hI2, hI3⟩
      split
      · rename_i htot
        have hzero : numLive (QuadTree.mk b mb n os l
            (some (c0.remove_empty_nodes, c1.remove_empty_nodes,
                   c2.remove_empty_nodes, c3.remove_empty_nodes))) = 0 := by
          rw [← total_eq_numLive _ hInv']
          omega
        rw [numLive_mk_some] at hzero
        have he0 : liveSlots c0.remove_empty_nodes = [] :=
          List.length_eq_zero.mp (by unfold numLive at hzero; omega)
        have he1 : liveSlots c1.remove_empty_nodes = [] :=
          List.length_eq_zero.mp (by unfold numLive at hzero; omega)
        have he2 : liveSlots c2.remove_empty_nodes = [] :=
          List.length_eq_zero.mp (by unfold numLive at hzero; omega)
        have he3 : liveSlots c3.remove_empty_nodes = [] :=
          List.length_eq_zero.mp (by unfold numLive at hzero; omega)
        constructor
        · rw [merge, children_mk]
          dsimp only
          rw [setChildren, Inv_leaf_iff]
          exact ⟨hlen, hn⟩
        · rw [merge, children_mk]
          dsimp only
          rw [setChildren]
          rw [liveSlots_mk_none, liveSlots_mk_some]
          rw [hL0] at he0; rw [hL1] at he1; rw [hL2] at he2; rw [hL3] at he3
          simp [he0, he1, he2, he3]
      · constructor
        · exact hInv'
        · rw [liveSlots_mk_some, liveSlots_mk_some, hL0, hL1, hL2, hL3]

/-! ## Insertion lemmas -/

theorem countId_nil (k : Nat) : countId [] k = 0 := rfl

@[simp] theorem setCount_mk (b mb : QuadTreeAABB) (n m : Nat) (os : List QuadTreeObject)
    (l : Nat) (cs : Option (QuadTree × QuadTree × QuadTree × QuadTree)) :
    (QuadTree.mk b mb n os l cs).setCount m = .mk b mb m os l cs := rfl

theorem resolve_mk_shape (b mb : QuadTreeAABB) (n : Nat) (os : List QuadTreeObject)
    (l : Nat) (cs : Option (QuadTree × QuadTree × QuadTree × QuadTree)) :
    resolve_max_bounds (QuadTree.mk b mb n os l cs) =
      .mk b (resolve_max_bounds (QuadTree.mk b mb n os l cs)).max_bounds n os l cs := rfl

theorem liveSlots_fresh_setLevel (C lvl : Nat) (cb : QuadTreeAABB) :
    liveSlots ((fresh C cb).setLevel lvl) = [] := by
  simp [fresh, setLevel, List.filter_replicate, emptySlot]

theorem Inv_fresh_setLevel (C lvl : Nat) (cb : QuadTreeAABB) :
    Inv C ((fresh C cb).setLevel lvl) = true := by
  rw [fresh, setLevel, Inv_leaf_iff]
  simp [List.filter_replicate, emptySlot]

theorem insertFresh_false_eq {C lvl : Nat} {cb : QuadTreeAABB} {o : QuadTreeObject}
    {f : QuadTree} (h : insertFresh C cb lvl o = (false, f)) :
    f = (fresh C cb).setLevel lvl := by
  unfold insertFresh at h
  dsimp only at h
  split at h
  · split at h
    · simp_all
    · rcases hp : placeFirstFree ((fresh C cb).setLevel lvl).objects o with _ | os' <;>
        rw [hp] at h <;> simp_all
  · simp_all

theorem insertFresh_true_spec {C lvl : Nat} {cb : QuadTreeAABB} {o : QuadTreeObject}
    {f : QuadTree} (h : insertFresh C cb lvl o = (true, f)) :
    cb.intersects o.bounds = true ∧ f.children = none ∧ f.bounds = cb ∧
      f.object_count = 1 ∧ Inv C f = true ∧ liveSlots f = [storedOf o] ∧
      containsAABB f.max_bounds cb = true := by
  unfold insertFresh at h
  dsimp only at h
  split at h
  case isFalse => simp_all
  rename_i hint
  split at h
  case isTrue => simp_all
  rename_i hC
  rcases C with _ | m
  · exact absurd rfl hC
  · have hos : placeFirstFree ((fresh (m + 1) cb).setLevel lvl).objects o =
        some (storedOf o :: List.replicate m emptySlot) := by
      simp [fresh, setLevel, List.replicate_succ, placeFirstFree, emptySlot, storedOf]
    rw [hos] at h
    simp only [Prod.mk.injEq, true_and] at h
    subst h
    simp only [fresh, setLevel, setObjects]
    rw [resolve_mk_shape]
    refine ⟨hint, rfl, rfl, rfl, ?_, ?_, ?_⟩
    · rw [setCount_mk, Inv_leaf_iff]
      simp [List.filter_replicate, emptySlot, storedOf]
    · simp [List.filter_replicate, emptySlot, storedOf, setCount_mk]
    · exact resolve_mb_contains (QuadTree.mk cb cb 0
        (storedOf o :: List.replicate m emptySlot) lvl none)


theorem numLive_resolve (t : QuadTree) :
    numLive (resolve_max_bounds t) = numLive t := by
  rw [numLive, liveSlots_resolve]; rfl

theorem liveIdCount_resolve (t : QuadTree) (k : Nat) :
    liveIdCount (resolve_max_bounds t) k = liveIdCount t k := by
  rw [liveIdCount, liveSlots_resolve]; rfl

theorem countId_storedOf (o : QuadTreeObject) (k : Nat) :
    countId [storedOf o] k = if o.id = k then 1 else 0 := by
  simp [countId_cons, countId_nil, storedOf]

theorem numLive_fresh_setLevel (C lvl : Nat) (cb : QuadTreeAABB) :
    numLive ((fresh C cb).setLevel lvl) = 0 := by
  rw [numLive, liveSlots_fresh_setLevel]; rfl

theorem liveIdCount_fresh_setLevel (C lvl : Nat) (cb : QuadTreeAABB) (k : Nat) :
    liveIdCount ((fresh C cb).setLevel lvl) k = 0 := by
  rw [liveIdCount, liveSlots_fresh_setLevel]; rfl

theorem insert_ok_false_eq {C : Nat} {t t' : QuadTree} {o : QuadTreeObject}
    (h : insert C t o = .ok false t') : t' = t := by
  obtain ⟨b, mb, n, os, l, cs⟩ := t
  unfold insert at h
  repeat' split at h
  all_goals try simp only [split, children, setChildren, setLevel] at h
  all_goals repeat' split at h
  all_goals simp_all

theorem insert_ok_true_spec {C : Nat} (t : QuadTree) :
    ∀ {o : QuadTreeObject} {t' : QuadTree}, Inv C t = true →
      insert C t o = .ok true t' →
      Inv C t' = true ∧ numLive t' = numLive t + 1 ∧
      (∀ k, liveIdCount t' k = (if o.id = k then 1 else 0) + liveIdCount t k) := by
  induction t using my_ind with
  | hleaf b mb n os l =>
      intro o t' hInv h
      unfold insert at h
      split at h
      case isFalse => simp at h
      split at h
      · -- full leaf: split into four fresh children
        rw [Inv_leaf_iff] at hInv
        obtain ⟨hlen, hn⟩ := hInv
        simp only [split, children_mk, setChildren, bounds_mk, level_mk] at h
        repeat' split at h
        case h_2.h_2.h_2.h_2 => simp at h
        case h_1 =>
          rename_i x0 f0' heq0
          obtain ⟨-, rfl⟩ := InsRes.ok.inj h
          obtain ⟨-, -, -, -, hIp, hL0, -⟩ := insertFresh_true_spec heq0
          refine ⟨?_, ?_, ?_⟩
          · apply Inv_resolve
            rw [Inv_node_iff]
            refine ⟨⟨hlen, hn⟩, ?_, ?_, ?_, ?_⟩ <;>
              first | exact hIp | exact Inv_fresh_setLevel ..
          · rw [numLive_resolve, numLive_mk_some, numLive_mk_none]
            have e : numLive f0' = 1 := by rw [numLive, hL0]; rfl
            simp only [numLive_fresh_setLevel, e]
            omega
          · intro k
            rw [liveIdCount_resolve, liveIdCount_mk_some, liveIdCount_mk_none]
            have e : liveIdCount f0' k = if o.id = k then 1 else 0 := by
              rw [liveIdCount, hL0, countId_storedOf]
            simp only [liveIdCount_fresh_setLevel, e]
            omega
        case h_2.h_1 =>
          rename_i x0 s0 heq0 x1 f1' heq1
          obtain ⟨-, rfl⟩ := InsRes.ok.inj h
          obtain ⟨-, -, -, -, hIp, hL1, -⟩ := insertFresh_true_spec heq1
          refine ⟨?_, ?_, ?_⟩
          · apply Inv_resolve
            rw [Inv_node_iff]
            refine ⟨⟨hlen, hn⟩, ?_, ?_, ?_, ?_⟩ <;>
              first | exact hIp | exact Inv_fresh_setLevel ..
          · rw [numLive_resolve, numLive_mk_some, numLive_mk_none]
            have e : numLive f1' = 1 := by rw [numLive, hL1]; rfl
            simp only [numLive_fresh_setLevel, e]
            omega
          · intro k
            rw [liveIdCount_resolve, liveIdCount_mk_some, liveIdCount_mk_none]
            have e : liveIdCount f1' k = if o.id = k then 1 else 0 := by
              rw [liveIdCount, hL1, countId_storedOf]
            simp only [liveIdCount_fresh_setLevel, e]
            omega
        case h_2.h_2.h_1 =>
          rename_i x0 s0 heq0 x1 s1 heq1 x2 f2' heq2
          obtain ⟨-, rfl⟩ := InsRes.ok.inj h
          obtain ⟨-, -, -, -, hIp, hL2, -⟩ := insertFresh_true_spec heq2
          refine ⟨?_, ?_, ?_⟩
          · apply Inv_resolve
            rw [Inv_node_iff]
            refine ⟨⟨hlen, hn⟩, ?_, ?_, ?_, ?_⟩ <;>
              first | exact hIp | exact Inv_fresh_setLevel ..
          · rw [numLive_resolve, numLive_mk_some, numLive_mk_none]
            have e : numLive f2' = 1 := by rw [numLive, hL2]; rfl
            simp only [numLive_fresh_setLevel, e]
            omega
          · intro k
            rw [liveIdCount_resolve, liveIdCount_mk_some, liveIdCount_mk_none]
            have e : liveIdCount f2' k = if o.id = k then 1 else 0 := by
              rw [liveIdCount, hL2, countId_storedOf]
            simp only [liveIdCount_fresh_setLevel, e]
            omega
        case h_2.h_2.h_2.h_1 =>
          rename_i x0 s0 heq0 x1 s1 heq1 x2 s2 heq2 x3 f3' heq3
          obtain ⟨-, rfl⟩ := InsRes.ok.inj h
          obtain ⟨-, -, -, -, hIp, hL3, -⟩ := insertFresh_true_spec heq3
          refine ⟨?_, ?_, ?_⟩
          · apply Inv_resolve
            rw [Inv_node_iff]
            refine ⟨⟨hlen, hn⟩, ?_, ?_, ?_, ?_⟩ <;>
              first | exact hIp | exact Inv_fresh_setLevel ..
          · rw [numLive_resolve, numLive_mk_some, numLive_mk_none]
            have e : numLive f3' = 1 := by rw [numLive, hL3]; rfl
            simp only [numLive_fresh_setLevel, e]
            omega
          · intro k
            rw [liveIdCount_resolve, liveIdCount_mk_some, liveIdCount_mk_none]
            have e : liveIdCount f3' k = if o.id = k then 1 else 0 := by
              rw [liveIdCount, hL3, countId_storedOf]
            simp only [liveIdCount_fresh_setLevel, e]
            omega
      · -- place into a free slot
        rw [Inv_leaf_iff] at hInv
        obtain ⟨hlen, hn⟩ := hInv
        rcases hp : placeFirstFree os o with _ | os' <;> rw [hp] at h
        · simp at h
        · obtain ⟨-, rfl⟩ := InsRes.ok.inj h
          have hperm := placeFirstFree_filter_perm hp
          have hlen' := placeFirstFree_length hp
          have hlc := hperm.length_eq
          simp only [List.length_cons] at hlc
          rw [resolve_mk_shape, setCount_mk]
          refine ⟨?_, ?_, ?_⟩
          · rw [Inv_leaf_iff]
            exact ⟨by omega, by omega⟩
          · rw [numLive_mk_none, numLive_mk_none]
            omega
          · intro k
            rw [liveIdCount_mk_none, liveIdCount_mk_none, countId_perm hperm,
              countId_cons]
            simp [storedOf]
  | hnode b mb n os l c0 c1 c2 c3 ih0 ih1 ih2 ih3 =>
      intro o t' hInv h
      unfold insert at h
      split at h
      case isFalse => simp at h
      split at h
      · dsimp only at h
        repeat' split at h
        case h_1 =>
          rename_i x0 c0p heq0
          obtain ⟨-, rfl⟩ := InsRes.ok.inj h
          rw [Inv_node_iff] at hInv
          obtain ⟨⟨hlen, hn⟩, hI0, hI1, hI2, hI3⟩ := hInv
          obtain ⟨hIp, hNp, hCp⟩ := ih0 hI0 heq0
          refine ⟨?_, ?_, ?_⟩
          · apply Inv_resolve
            rw [Inv_node_iff]
            exact ⟨⟨hlen, hn⟩, hIp, hI1, hI2, hI3⟩
          · rw [numLive_resolve, numLive_mk_some, numLive_mk_some]
            omega
          · intro k
            rw [liveIdCount_resolve, liveIdCount_mk_some, liveIdCount_mk_some]
            have hck := hCp k
            split_ifs at hck ⊢ <;> omega
        case h_3.h_1 =>
          rename_i x0 c0f heq0f x1 c1p heq1
          obtain ⟨-, rfl⟩ := InsRes.ok.inj h
          obtain rfl := insert_ok_false_eq heq0f
          rw [Inv_node_iff] at hInv
          obtain ⟨⟨hlen, hn⟩, hI0, hI1, hI2, hI3⟩ := hInv
          obtain ⟨hIp, hNp, hCp⟩ := ih1 hI1 heq1
          refine ⟨?_, ?_, ?_⟩
          · apply Inv_resolve
            rw [Inv_node_iff]
            exact ⟨⟨hlen, hn⟩, hI0, hIp, hI2, hI3⟩
          · rw [numLive_resolve, numLive_mk_some, numLive_mk_some]
            omega
          · intro k
            rw [liveIdCount_resolve, liveIdCount_mk_some, liveIdCount_mk_some]
            have hck := hCp k
            split_ifs at hck ⊢ <;> omega
        case h_3.h_3.h_1 =>
          rename_i x0 c0f heq0f x1 c1f heq1f x2 c2p heq2
          obtain ⟨-, rfl⟩ := InsRes.ok.inj h
          obtain rfl := insert_ok_false_eq heq0f
          obtain rfl := insert_ok_false_eq heq1f
          rw [Inv_node_iff] at hInv
          obtain ⟨⟨hlen, hn⟩, hI0, hI1, hI2, hI3⟩ := hInv
          obtain ⟨hIp, hNp, hCp⟩ := ih2 hI2 heq2
          refine ⟨?_, ?_, ?_⟩
          · apply Inv_resolve
            rw [Inv_node_iff]
            exact ⟨⟨hlen, hn⟩, hI0, hI1, hIp, hI3⟩
          · rw [numLive_resolve, numLive_mk_some, numLive_mk_some]
            omega
          · intro k
            rw [liveIdCount_resolve, liveIdCount_mk_some, liveIdCount_mk_some]
            have hck := hCp k
            split_ifs at hck ⊢ <;> omega
        case h_3.h_3.h_3.h_1 =>
          rename_i x0 c0f heq0f x1 c1f heq1f x2 c2f heq2f x3 c3p heq3
          obtain ⟨-, rfl⟩ := InsRes.ok.inj h
          obtain rfl := insert_ok_false_eq heq0f
          obtain rfl := insert_ok_false_eq heq1f
          obtain rfl := insert_ok_false_eq heq2f
          rw [Inv_node_iff] at hInv
          obtain ⟨⟨hlen, hn⟩, hI0, hI1, hI2, hI3⟩ := hInv
          obtain ⟨hIp, hNp, hCp⟩ := ih3 hI3 heq3
          refine ⟨?_, ?_, ?_⟩
          · apply Inv_resolve
            rw [Inv_node_iff]
            exact ⟨⟨hlen, hn⟩, hI0, hI1, hI2, hIp⟩
          · rw [numLive_resolve, numLive_mk_some, numLive_mk_some]
            omega
          · intro k
            rw [liveIdCount_resolve, liveIdCount_mk_some, liveIdCount_mk_some]
            have hck := hCp k
            split_ifs at hck ⊢ <;> omega
        all_goals simp at h
      · -- place into a free slot of an already-subdivided node
        rw [Inv_node_iff] at hInv
        obtain ⟨⟨hlen, hn⟩, hI0, hI1, hI2, hI3⟩ := hInv
        rcases hp : placeFirstFree os o with _ | os' <;> rw [hp] at h
        · simp at h
        · obtain ⟨-, rfl⟩ := InsRes.ok.inj h
          have hperm := placeFirstFree_filter_perm hp
          have hlen' := placeFirstFree_length hp
          have hlc := hperm.length_eq
          simp only [List.length_cons] at hlc
          rw [resolve_mk_shape, setCount_mk]
          refine ⟨?_, ?_, ?_⟩
          · rw [Inv_node_iff]
            exact ⟨⟨by omega, by omega⟩, hI0, hI1, hI2, hI3⟩
          · rw [numLive_mk_some, numLive_mk_some]
            omega
          · intro k
            rw [liveIdCount_mk_some, liveIdCount_mk_some, countId_perm hperm,
              countId_cons]
            simp only [storedOf]
            omega

/-! ## Removal lemmas -/


theorem remove_false_eq (t : QuadTree) :
    ∀ {o : QuadTreeObject} {t' : QuadTree},
      remove t o = some (false, t') → t' = t := by
  induction t using my_ind with
  | hleaf b mb n os l =>
      intro o t' h
      unfold remove at h
      repeat' split at h
      all_goals simp_all
  | hnode b mb n os l c0 c1 c2 c3 ih0 ih1 ih2 ih3 =>
      intro o t' h
      unfold remove at h
      split at h
      · split at h
        · simp at h
        · dsimp only at h
          repeat' split at h
          all_goals try simp at h
          rename_i x0 c0f heq0 x1 c1f heq1 x2 c2f heq2 x3 c3f heq3
          obtain rfl := ih0 heq0
          obtain rfl := ih1 heq1
          obtain rfl := ih2 heq2
          obtain rfl := ih3 heq3
          exact h.symm
      · simp at h
        exact h.symm

theorem remove_true_spec {C : Nat} (t : QuadTree) :
    ∀ {o : QuadTreeObject} {t' : QuadTree}, Inv C t = true →
      remove t o = some (true, t') →
      Inv C t' = true ∧ numLive t = numLive t' + 1 ∧
      (∀ k, liveIdCount t k = (if o.id = k then 1 else 0) + liveIdCount t' k) := by
  induction t using my_ind with
  | hleaf b mb n os l =>
      intro o t' hInv h
      unfold remove at h
      split at h
      case isFalse => simp at h
      split at h
      case h_2 => simp at h
      rename_i n0 x0 m os' heqtb
      simp only [Option.some.injEq, Prod.mk.injEq, true_and] at h
      subst h
      rw [Inv_leaf_iff] at hInv
      obtain ⟨hlen, hn⟩ := hInv
      obtain ⟨s, hs1, hs2, hperm⟩ := tombstoneFirst_perm heqtb
      have hlen2 := tombstoneFirst_length heqtb
      have hl := hperm.length_eq
      simp only [List.length_cons] at hl
      have hInv1 : Inv C (QuadTree.mk b mb m os' l none) = true := by
        rw [Inv_leaf_iff]
        exact ⟨by omega, by omega⟩
      obtain ⟨hInvR, hLsR⟩ := @ren_spec C _ hInv1
      have hNum : numLive (resolve_max_bounds
          (remove_empty_nodes (QuadTree.mk b mb m os' l none))) =
          (os'.filter fun x => !x.removed).length := by
        rw [numLive_resolve, numLive, hLsR]
        rfl
      have hCnt : ∀ k, liveIdCount (resolve_max_bounds
          (remove_empty_nodes (QuadTree.mk b mb m os' l none))) k =
          countId (os'.filter fun x => !x.removed) k := by
        intro k
        rw [liveIdCount_resolve, liveIdCount, hLsR]
        rfl
      refine ⟨Inv_resolve _ _ hInvR, ?_, ?_⟩
      · rw [numLive_mk_none, hNum]
        omega
      · intro k
        rw [liveIdCount_mk_none, hCnt, countId_perm hperm, countId_cons, hs2]
  | hnode b mb n os l c0 c1 c2 c3 ih0 ih1 ih2 ih3 =>
      intro o t' hInv h
      unfold remove at h
      split at h
      case isFalse => simp at h
      split at h
      case h_2 =>
        dsimp only at h
        repeat' split at h
        case h_2 =>
          rename_i x0 c0p heq0
          simp only [Option.some.injEq, Prod.mk.injEq, true_and] at h
          subst h
          rw [Inv_node_iff] at hInv
          obtain ⟨⟨hlen, hn⟩, hI0, hI1, hI2, hI3⟩ := hInv
          obtain ⟨hIp, hNp, hCp⟩ := ih0 hI0 heq0
          refine ⟨?_, ?_, ?_⟩
          · apply Inv_resolve
            rw [Inv_node_iff]
            exact ⟨⟨hlen, hn⟩, hIp, hI1, hI2, hI3⟩
          · rw [numLive_resolve, numLive_mk_some, numLive_mk_some]
            omega
          · intro k
            rw [liveIdCount_resolve, liveIdCount_mk_some, liveIdCount_mk_some]
            have hck := hCp k
            split_ifs at hck ⊢ <;> omega
        case h_3.h_2 =>
          rename_i x0 c0f heq0f x1 c1p heq1
          simp only [Option.some.injEq, Prod.mk.injEq, true_and] at h
          subst h
          obtain rfl := remove_false_eq _ heq0f
          rw [Inv_node_iff] at hInv
          obtain ⟨⟨hlen, hn⟩, hI0, hI1, hI2, hI3⟩ := hInv
          obtain ⟨hIp, hNp, hCp⟩ := ih1 hI1 heq1
          refine ⟨?_, ?_, ?_⟩
          · apply Inv_resolve
            rw [Inv_node_iff]
            exact ⟨⟨hlen, hn⟩, hI0, hIp, hI2, hI3⟩
          · rw [numLive_resolve, numLive_mk_some, numLive_mk_some]
            omega
          · intro k
            rw [liveIdCount_resolve, liveIdCount_mk_some, liveIdCount_mk_some]
            have hck := hCp k
            split_ifs at hck ⊢ <;> omega
        case h_3.h_3.h_2 =>
          rename_i x0 c0f heq0f x1 c1f heq1f x2 c2p heq2
          simp only [Option.some.injEq, Prod.mk.injEq, true_and] at h
          subst h
          obtain rfl := remove_false_eq _ heq0f
          obtain rfl := remove_false_eq _ heq1f
          rw [Inv_node_iff] at hInv
          obtain ⟨⟨hlen, hn⟩, hI0, hI1, hI2, hI3⟩ := hInv
          obtain ⟨hIp, hNp, hCp⟩ := ih2 hI2 heq2
          refine ⟨?_, ?_, ?_⟩
          · apply Inv_resolve
            rw [Inv_node_iff]
            exact ⟨⟨hlen, hn⟩, hI0, hI1, hIp, hI3⟩
          · rw [numLive_resolve, numLive_mk_some, numLive_mk_some]
            omega
          · intro k
            rw [liveIdCount_resolve, liveIdCount_mk_some, liveIdCount_mk_some]
            have hck := hCp k
            split_ifs at hck ⊢ <;> omega
        case h_3.h_3.h_3.h_2 =>
          rename_i x0 c0f heq0f x1 c1f heq1f x2 c2f heq2f x3 c3p heq3
          simp only [Option.some.injEq, Prod.mk.injEq, true_and] at h
          subst h
          obtain rfl := remove_false_eq _ heq0f
          obtain rfl := remove_false_eq _ heq1f
          obtain rfl := remove_false_eq _ heq2f
          rw [Inv_node_iff] at hInv
          obtain ⟨⟨hlen, hn⟩, hI0, hI1, hI2, hI3⟩ := hInv
          obtain ⟨hIp, hNp, hCp⟩ := ih3 hI3 heq3
          refine ⟨?_, ?_, ?_⟩
          · apply Inv_resolve
            rw [Inv_node_iff]
            exact ⟨⟨hlen, hn⟩, hI0, hI1, hI2, hIp⟩
          · rw [numLive_resolve, numLive_mk_some, numLive_mk_some]
            omega
          · intro k
            rw [liveIdCount_resolve, liveIdCount_mk_some, liveIdCount_mk_some]
            have hck := hCp k
            split_ifs at hck ⊢ <;> omega
        all_goals simp at h
      rename_i n0 x0 m os' heqtb
      simp only [Option.some.injEq, Prod.mk.injEq, true_and] at h
      subst h
      rw [Inv_node_iff] at hInv
      obtain ⟨⟨hlen, hn⟩, hI0, hI1, hI2, hI3⟩ := hInv
      obtain ⟨s, hs1, hs2, hperm⟩ := tombstoneFirst_perm heqtb
      have hlen2 := tombstoneFirst_length heqtb
      have hl := hperm.length_eq
      simp only [List.length_cons] at hl
      have hInv1 : Inv C (QuadTree.mk b mb m os' l (some (c0, c1, c2, c3))) = true := by
        rw [Inv_node_iff]
        exact ⟨⟨by omega, by omega⟩, hI0, hI1, hI2, hI3⟩
      obtain ⟨hInvR, hLsR⟩ := @ren_spec C _ hInv1
      have hNum : numLive (resolve_max_bounds
          (remove_empty_nodes (QuadTree.mk b mb m os' l (some (c0, c1, c2, c3))))) =
          numLive (QuadTree.mk b mb m os' l (some (c0, c1, c2, c3))) := by
        rw [numLive_resolve, numLive, hLsR]
        rfl
      have hCnt : ∀ k, liveIdCount (resolve_max_bounds
          (remove_empty_nodes (QuadTree.mk b mb m os' l (some (c0, c1, c2, c3))))) k =
          liveIdCount (QuadTree.mk b mb m os' l (some (c0, c1, c2, c3))) k := by
        intro k
        rw [liveIdCount_resolve, liveIdCount, hLsR]
        rfl
      refine ⟨Inv_resolve _ _ hInvR, ?_, ?_⟩
      · rw [hNum, numLive_mk_some, numLive_mk_some]
        omega
      · intro k
        rw [hCnt, liveIdCount_mk_some, liveIdCount_mk_some, countId_perm hperm,
          countId_cons, hs2]
        omega

/-! ## Query lemmas -/


theorem filter_live_inter (os : List QuadTreeObject) (r : QuadTreeAABB) :
    (os.filter fun s => !s.removed).filter (fun s => s.bounds.intersects r) =
      os.filter fun s => !s.removed && s.bounds.intersects r := by
  induction os with
  | nil => rfl
  | cons s rest ih =>
      by_cases hr : s.removed = true <;>
        by_cases hi : s.bounds.intersects r = true <;>
        simp [List.filter_cons, hr, hi, ih]

theorem queryBuf_mem (t : QuadTree) :
    ∀ {r : QuadTreeAABB} {checks : Bool} {x : QuadTreeObject},
      x ∈ queryBuf t r checks → x ∈ liveSlots t ∧ x.bounds.intersects r = true := by
  induction t using my_ind with
  | hleaf b mb n os l =>
      intro r checks x hx
      unfold queryBuf at hx
      split at hx
      · simp only [List.nil_append] at hx
        split at hx
        · simp at hx
        · simp only [List.mem_filter, Bool.and_eq_true] at hx
          refine ⟨?_, hx.2.2⟩
          simp only [liveSlots_mk_none, List.mem_filter]
          exact ⟨hx.1, hx.2.1⟩
      · simp at hx
  | hnode b mb n os l c0 c1 c2 c3 ih0 ih1 ih2 ih3 =>
      intro r checks x hx
      unfold queryBuf at hx
      split at hx
      · simp only [List.mem_append] at hx
        rcases hx with ((((hx | hx) | hx) | hx) | hx)
        · obtain ⟨hm, hi⟩ := ih0 hx
          exact ⟨by simp [List.mem_append, hm], hi⟩
        · obtain ⟨hm, hi⟩ := ih1 hx
          exact ⟨by simp [List.mem_append, hm], hi⟩
        · obtain ⟨hm, hi⟩ := ih2 hx
          exact ⟨by simp [List.mem_append, hm], hi⟩
        · obtain ⟨hm, hi⟩ := ih3 hx
          exact ⟨by simp [List.mem_append, hm], hi⟩
        · split at hx
          · simp at hx
          · simp only [List.mem_filter, Bool.and_eq_true] at hx
            refine ⟨?_, hx.2.2⟩
            simp only [liveSlots_mk_some, List.mem_append, List.mem_filter]
            exact Or.inr ⟨hx.1, hx.2.1⟩
      · simp at hx

theorem queryVec_mem (t : QuadTree) :
    ∀ {r : QuadTreeAABB} {checks : Bool} {x : QuadTreeObject},
      x ∈ queryVec t r checks → x ∈ liveSlots t ∧ x.bounds.intersects r = true := by
  induction t using my_ind with
  | hleaf b mb n os l =>
      intro r checks x hx
      unfold queryVec at hx
      split at hx
      · simp only [List.nil_append] at hx
        split at hx
        · simp at hx
        · simp only [List.mem_filter, Bool.and_eq_true] at hx
          refine ⟨?_, hx.2.2⟩
          simp only [liveSlots_mk_none, List.mem_filter]
          exact ⟨hx.1, hx.2.1⟩
      · simp at hx
  | hnode b mb n os l c0 c1 c2 c3 ih0 ih1 ih2 ih3 =>
      intro r checks x hx
      unfold queryVec at hx
      split at hx
      · simp only [List.mem_append] at hx
        rcases hx with ((((hx | hx) | hx) | hx) | hx)
        · obtain ⟨hm, hi⟩ := ih0 hx
          exact ⟨by simp [List.mem_append, hm], hi⟩
        · obtain ⟨hm, hi⟩ := ih1 hx
          exact ⟨by simp [List.mem_append, hm], hi⟩
        · obtain ⟨hm, hi⟩ := ih2 hx
          exact ⟨by simp [List.mem_append, hm], hi⟩
        · obtain ⟨hm, hi⟩ := ih3 hx
          exact ⟨by simp [List.mem_append, hm], hi⟩
        · split at hx
          · simp at hx
          · simp only [List.mem_filter, Bool.and_eq_true] at hx
            refine ⟨?_, hx.2.2⟩
            simp only [liveSlots_mk_some, List.mem_append, List.mem_filter]
            exact Or.inr ⟨hx.1, hx.2.1⟩
      · simp at hx

theorem queryBuf_countId_le (t : QuadTree) :
    ∀ {r : QuadTreeAABB} {checks : Bool} {k : Nat},
      countId (queryBuf t r checks) k ≤ liveIdCount t k := by
  induction t using my_ind with
  | hleaf b mb n os l =>
      intro r checks k
      unfold queryBuf
      split
      · simp only [List.nil_append]
        split
        · simp [countId_nil, liveIdCount_mk_none]
        · rw [liveIdCount_mk_none, ← filter_live_inter]
          exact countId_filter_le _ _ _
      · simp [countId_nil, liveIdCount_mk_none]
  | hnode b mb n os l c0 c1 c2 c3 ih0 ih1 ih2 ih3 =>
      intro r checks k
      unfold queryBuf
      split
      · rw [countId_append, countId_append, countId_append, countId_append,
          liveIdCount_mk_some]
        have h4 : countId (if n < 1 then [] else
            os.filter fun s => !s.removed && s.bounds.intersects r) k ≤
            countId (os.filter fun s => !s.removed) k := by
          split
          · simp [countId_nil]
          · rw [← filter_live_inter]
            exact countId_filter_le _ _ _
        have := @ih0 r checks k
        have := @ih1 r checks k
        have := @ih2 r checks k
        have := @ih3 r checks k
        omega
      · simp [countId_nil, liveIdCount_mk_some]

theorem queryVec_countId_le (t : QuadTree) :
    ∀ {r : QuadTreeAABB} {checks : Bool} {k : Nat},
      countId (queryVec t r checks) k ≤ liveIdCount t k := by
  induction t using my_ind with
  | hleaf b mb n os l =>
      intro r checks k
      unfold queryVec
      split
      · simp only [List.nil_append]
        split
        · simp [countId_nil, liveIdCount_mk_none]
        · rw [liveIdCount_mk_none, ← filter_live_inter]
          exact countId_filter_le _ _ _
      · simp [countId_nil, liveIdCount_mk_none]
  | hnode b mb n os l c0 c1 c2 c3 ih0 ih1 ih2 ih3 =>
      intro r checks k
      unfold queryVec
      split
      · rw [countId_append, countId_append, countId_append, countId_append,
          liveIdCount_mk_some]
        have h4 : countId (if n < 1 then [] else
            os.filter fun s => !s.removed && s.bounds.intersects r) k ≤
            countId (os.filter fun s => !s.removed) k := by
          split
          · simp [countId_nil]
          · rw [← filter_live_inter]
            exact countId_filter_le _ _ _
        have := @ih0 r checks k
        have := @ih1 r checks k
        have := @ih2 r checks k
        have := @ih3 r checks k
        omega
      · simp [countId_nil, liveIdCount_mk_some]

theorem queryBuf_noChecks {C : Nat} (t : QuadTree) (hInv : Inv C t = true) :
    ∀ r : QuadTreeAABB, queryBuf t r false =
      (liveSlots t).filter fun s => s.bounds.intersects r := by
  induction t using my_ind with
  | hleaf b mb n os l =>
      intro r
      rw [Inv_leaf_iff] at hInv
      obtain ⟨hlen, hn⟩ := hInv
      unfold queryBuf
      simp only [Bool.not_false, Bool.or_true, eq_self_iff_true, if_true,
        List.nil_append, liveSlots_mk_none]
      split
      · rename_i hsmall
        have h0 : (os.filter fun s => !s.removed) = [] :=
          List.length_eq_zero.mp (by omega)
        rw [h0]
        simp
      · rw [filter_live_inter]
  | hnode b mb n os l c0 c1 c2 c3 ih0 ih1 ih2 ih3 =>
      intro r
      rw [Inv_node_iff] at hInv
      obtain ⟨⟨hlen, hn⟩, hI0, hI1, hI2, hI3⟩ := hInv
      unfold queryBuf
      simp only [Bool.not_false, Bool.or_true, eq_self_iff_true, if_true,
        liveSlots_mk_some, List.filter_append]
      rw [ih0 hI0, ih1 hI1, ih2 hI2, ih3 hI3]
      split
      · rename_i hsmall
        have h0 : (os.filter fun s => !s.removed) = [] :=
          List.length_eq_zero.mp (by omega)
        rw [h0]
        simp
      · rw [filter_live_inter]

theorem queryVec_noChecks {C : Nat} (t : QuadTree) (hInv : Inv C t = true) :
    ∀ r : QuadTreeAABB, queryVec t r false =
      (liveSlots t).filter fun s => s.bounds.intersects r := by
  induction t using my_ind with
  | hleaf b mb n os l =>
      intro r
      rw [Inv_leaf_iff] at hInv
      obtain ⟨hlen, hn⟩ := hInv
      unfold queryVec
      simp only [Bool.not_false, Bool.or_true, eq_self_iff_true, if_true,
        List.nil_append, liveSlots_mk_none]
      split
      · rename_i hsmall
        have h0 : (os.filter fun s => !s.removed) = [] :=
          List.length_eq_zero.mp (by omega)
        rw [h0]
        simp
      · rw [filter_live_inter]
  | hnode b mb n os l c0 c1 c2 c3 ih0 ih1 ih2 ih3 =>
      intro r
      rw [Inv_node_iff] at hInv
      obtain ⟨⟨hlen, hn⟩, hI0, hI1, hI2, hI3⟩ := hInv
      unfold queryVec
      simp only [Bool.not_false, Bool.or_true, eq_self_iff_true, if_true,
        liveSlots_mk_some, List.filter_append]
      rw [ih0 hI0, ih1 hI1, ih2 hI2, ih3 hI3]
      split
      · rename_i hsmall
        have h0 : (os.filter fun s => !s.removed) = [] :=
          List.length_eq_zero.mp (by omega)
        rw [h0]
        simp
      · rw [filter_live_inter]


theorem insertFresh_query_one {C lvl : Nat} {cb : QuadTreeAABB} {o : QuadTreeObject}
    {f : QuadTree} {r : QuadTreeAABB} (h : insertFresh C cb lvl o = (true, f))
    (hv : o.bounds.verify = true) (hr : containsAABB r o.bounds = true) :
    countId (queryBuf f r true) o.id = 1 ∧ countId (queryVec f r true) o.id = 1 := by
  unfold insertFresh at h
  dsimp only at h
  split at h
  case isFalse => simp_all
  rename_i hint
  split at h
  case isTrue => simp_all
  rename_i hC
  rcases C with _ | m
  · exact absurd rfl hC
  · have hos : placeFirstFree ((fresh (m + 1) cb).setLevel lvl).objects o =
        some (storedOf o :: List.replicate m emptySlot) := by
      simp [fresh, setLevel, List.replicate_succ, placeFirstFree, emptySlot, storedOf]
    rw [hos] at h
    simp only [Prod.mk.injEq, true_and] at h
    subst h
    simp only [fresh, setLevel, setObjects]
    rw [resolve_mk_shape, setCount_mk]
    have hor : o.bounds.intersects r = true := intersects_of_verify_contains hv hr
    have hcr : cb.intersects r = true := intersects_of_intersects_contains hint hr
    have hmb : containsAABB (resolve_max_bounds (QuadTree.mk cb cb 0
        (storedOf o :: List.replicate m emptySlot) lvl none)).max_bounds cb = true :=
      resolve_mb_contains _
    have hmbr : (resolve_max_bounds (QuadTree.mk cb cb 0
        (storedOf o :: List.replicate m emptySlot) lvl none)).max_bounds.intersects r
        = true := intersects_of_contains_intersects hmb hcr
    have hfilter : ((storedOf o :: List.replicate m emptySlot).filter
        fun s => !s.removed && s.bounds.intersects r) = [storedOf o] := by
      simp [List.filter_cons, storedOf, hor, List.filter_replicate, emptySlot]
    constructor
    · unfold queryBuf
      simp only [Bool.not_true, Bool.or_false, hmbr, eq_self_iff_true, if_true,
        List.nil_append]
      rw [if_neg (by omega)]
      rw [hfilter, countId_storedOf]
      simp
    · unfold queryVec
      simp only [Bool.not_true, Bool.or_false, hcr, eq_self_iff_true, if_true,
        List.nil_append]
      rw [if_neg (by omega)]
      rw [hfilter, countId_storedOf]
      simp

theorem countId_own_zero {n : Nat} {os : List QuadTreeObject} {r : QuadTreeAABB}
    {k : Nat} (hz : countId (os.filter fun s => !s.removed) k = 0) :
    countId (if n < 1 then [] else
      os.filter fun s => !s.removed && s.bounds.intersects r) k = 0 := by
  split
  · rfl
  · rw [← filter_live_inter]
    have := countId_filter_le (fun s => s.bounds.intersects r)
      (os.filter fun s => !s.removed) k
    omega

theorem countId_place_filter {os os' : List QuadTreeObject} {o : QuadTreeObject}
    {r : QuadTreeAABB} (hp : placeFirstFree os o = some os')
    (hor : o.bounds.intersects r = true)
    (hz : countId (os.filter fun s => !s.removed) o.id = 0) :
    countId (os'.filter fun s => !s.removed && s.bounds.intersects r) o.id = 1 := by
  rw [← filter_live_inter]
  rw [countId_perm ((placeFirstFree_filter_perm hp).filter _)]
  rw [List.filter_cons, if_pos (show (storedOf o).bounds.intersects r = true from hor),
    countId_cons, if_pos (show (storedOf o).id = o.id from rfl)]
  have := countId_filter_le (fun s => s.bounds.intersects r)
    (os.filter fun s => !s.removed) o.id
  omega

theorem queryBuf_zero {c : QuadTree} {r : QuadTreeAABB} {checks : Bool} {k : Nat}
    (h : liveIdCount c k = 0) : countId (queryBuf c r checks) k = 0 :=
  Nat.le_zero.mp (h ▸ queryBuf_countId_le c)

theorem queryVec_zero {c : QuadTree} {r : QuadTreeAABB} {checks : Bool} {k : Nat}
    (h : liveIdCount c k = 0) : countId (queryVec c r checks) k = 0 :=
  Nat.le_zero.mp (h ▸ queryVec_countId_le c)

theorem queryBuf_fresh_countId (C lvl : Nat) (cb : QuadTreeAABB) (r : QuadTreeAABB)
    (k : Nat) : countId (queryBuf ((fresh C cb).setLevel lvl) r true) k = 0 :=
  queryBuf_zero (liveIdCount_fresh_setLevel C lvl cb k)

theorem queryVec_fresh_countId (C lvl : Nat) (cb : QuadTreeAABB) (r : QuadTreeAABB)
    (k : Nat) : countId (queryVec ((fresh C cb).setLevel lvl) r true) k = 0 :=
  queryVec_zero (liveIdCount_fresh_setLevel C lvl cb k)

theorem query_one_node (g0 g1 g2 g3 : QuadTree) (b mb : QuadTreeAABB)
    (n : Nat) (os : List QuadTreeObject) (l : Nat) (o : QuadTreeObject)
    (r : QuadTreeAABB)
    (hbr : b.intersects r = true)
    (hzero : countId (os.filter fun s => !s.removed) o.id = 0)
    (hB : countId (queryBuf g0 r true) o.id + countId (queryBuf g1 r true) o.id +
          countId (queryBuf g2 r true) o.id + countId (queryBuf g3 r true) o.id = 1)
    (hV : countId (queryVec g0 r true) o.id + countId (queryVec g1 r true) o.id +
          countId (queryVec g2 r true) o.id + countId (queryVec g3 r true) o.id = 1) :
    countId (queryBuf (resolve_max_bounds
      (.mk b mb n os l (some (g0, g1, g2, g3)))) r true) o.id = 1 ∧
    countId (queryVec (resolve_max_bounds
      (.mk b mb n os l (some (g0, g1, g2, g3)))) r true) o.id = 1 := by
  have hmb := resolve_mb_contains (QuadTree.mk b mb n os l (some (g0, g1, g2, g3)))
  rw [bounds_mk] at hmb
  have hmbr := intersects_of_contains_intersects hmb hbr
  rw [resolve_mk_shape]
  constructor
  · unfold queryBuf
    simp only [Bool.not_true, Bool.or_false, max_bounds_mk, hmbr, eq_self_iff_true,
      if_true]
    rw [countId_append, countId_append, countId_append, countId_append,
      countId_own_zero hzero]
    omega
  · unfold queryVec
    simp only [Bool.not_true, Bool.or_false, bounds_mk, hbr, eq_self_iff_true,
      if_true]
    rw [countId_append, countId_append, countId_append, countId_append,
      countId_own_zero hzero]
    omega

theorem query_one_place_none (b mbig : QuadTreeAABB) (m : Nat)
    (os' : List QuadTreeObject) (l : Nat) (o : QuadTreeObject) (r : QuadTreeAABB)
    (hmb : containsAABB mbig b = true) (hbr : b.intersects r = true) (hm : 0 < m)
    (hown : countId (os'.filter fun s => !s.removed && s.bounds.intersects r) o.id = 1) :
    countId (queryBuf (.mk b mbig m os' l none) r true) o.id = 1 ∧
    countId (queryVec (.mk b mbig m os' l none) r true) o.id = 1 := by
  have hmbr := intersects_of_contains_intersects hmb hbr
  constructor
  · unfold queryBuf
    simp only [Bool.not_true, Bool.or_false, hmbr, eq_self_iff_true, if_true,
      List.nil_append]
    rw [if_neg (by omega), hown]
  · unfold queryVec
    simp only [Bool.not_true, Bool.or_false, hbr, eq_self_iff_true, if_true,
      List.nil_append]
    rw [if_neg (by omega), hown]

theorem query_one_place_some (c0 c1 c2 c3 : QuadTree) (b mbig : QuadTreeAABB)
    (m : Nat) (os' : List QuadTreeObject) (l : Nat) (o : QuadTreeObject)
    (r : QuadTreeAABB)
    (hmb : containsAABB mbig b = true) (hbr : b.intersects r = true) (hm : 0 < m)
    (hz0 : liveIdCount c0 o.id = 0) (hz1 : liveIdCount c1 o.id = 0)
    (hz2 : liveIdCount c2 o.id = 0) (hz3 : liveIdCount c3 o.id = 0)
    (hown : countId (os'.filter fun s => !s.removed && s.bounds.intersects r) o.id = 1) :
    countId (queryBuf (.mk b mbig m os' l (some (c0, c1, c2, c3))) r true) o.id = 1 ∧
    countId (queryVec (.mk b mbig m os' l (some (c0, c1, c2, c3))) r true) o.id = 1 := by
  have hmbr := intersects_of_contains_intersects hmb hbr
  constructor
  · unfold queryBuf
    simp only [Bool.not_true, Bool.or_false, hmbr, eq_self_iff_true, if_true]
    rw [countId_append, countId_append, countId_append, countId_append,
      queryBuf_zero hz0, queryBuf_zero hz1, queryBuf_zero hz2, queryBuf_zero hz3,
      if_neg (by omega), hown]
  · unfold queryVec
    simp only [Bool.not_true, Bool.or_false, hbr, eq_self_iff_true, if_true]
    rw [countId_append, countId_append, countId_append, countId_append,
      queryVec_zero hz0, queryVec_zero hz1, queryVec_zero hz2, queryVec_zero hz3,
      if_neg (by omega), hown]

theorem insert_query_one {C : Nat} (t : QuadTree) :
    ∀ {o : QuadTreeObject} {t' : QuadTree} {r : QuadTreeAABB},
      Inv C t = true → liveIdCount t o.id = 0 → o.bounds.verify = true →
      containsAABB r o.bounds = true → insert C t o = .ok true t' →
      countId (queryBuf t' r true) o.id = 1 ∧
      countId (queryVec t' r true) o.id = 1 := by
  induction t using my_ind with
  | hleaf b mb n os l =>
      intro o t' r hInv hzero hv hrc h
      rw [liveIdCount_mk_none] at hzero
      unfold insert at h
      split at h
      case isFalse => simp at h
      rename_i hguard
      have hbr : b.intersects r = true := intersects_of_intersects_contains hguard hrc
      have hor : o.bounds.intersects r = true := intersects_of_verify_contains hv hrc
      split at h
      · simp only [split, children_mk, setChildren, bounds_mk, level_mk] at h
        repeat' split at h
        case h_2.h_2.h_2.h_2 => simp at h
        case h_1 =>
          rename_i x0 f0' heq0
          obtain ⟨-, rfl⟩ := InsRes.ok.inj h
          obtain ⟨hqB, hqV⟩ := insertFresh_query_one heq0 hv hrc
          refine query_one_node _ _ _ _ _ _ _ _ _ _ _ hbr hzero ?_ ?_
          · rw [queryBuf_fresh_countId, queryBuf_fresh_countId, queryBuf_fresh_countId, hqB]
          · rw [queryVec_fresh_countId, queryVec_fresh_countId, queryVec_fresh_countId, hqV]
        case h_2.h_1 =>
          rename_i x0 s0 heq0 x1 f1' heq1
          obtain ⟨-, rfl⟩ := InsRes.ok.inj h
          obtain ⟨hqB, hqV⟩ := insertFresh_query_one heq1 hv hrc
          refine query_one_node _ _ _ _ _ _ _ _ _ _ _ hbr hzero ?_ ?_
          · rw [queryBuf_fresh_countId, queryBuf_fresh_countId, queryBuf_fresh_countId, hqB]
          · rw [queryVec_fresh_countId, queryVec_fresh_countId, queryVec_fresh_countId, hqV]
        case h_2.h_2.h_1 =>
          rename_i x0 s0 heq0 x1 s1 heq1 x2 f2' heq2
          obtain ⟨-, rfl⟩ := InsRes.ok.inj h
          obtain ⟨hqB, hqV⟩ := insertFresh_query_one heq2 hv hrc
          refine query_one_node _ _ _ _ _ _ _ _ _ _ _ hbr hzero ?_ ?_
          · rw [queryBuf_fresh_countId, queryBuf_fresh_countId, queryBuf_fresh_countId, hqB]
          · rw [queryVec_fresh_countId, queryVec_fresh_countId, queryVec_fresh_countId, hqV]
        case h_2.h_2.h_2.h_1 =>
          rename_i x0 s0 heq0 x1 s1 heq1 x2 s2 heq2 x3 f3' heq3
          obtain ⟨-, rfl⟩ := InsRes.ok.inj h
          obtain ⟨hqB, hqV⟩ := insertFresh_query_one heq3 hv hrc
          refine query_one_node _ _ _ _ _ _ _ _ _ _ _ hbr hzero ?_ ?_
          · rw [queryBuf_fresh_countId, queryBuf_fresh_countId, queryBuf_fresh_countId, hqB]
          · rw [queryVec_fresh_countId, queryVec_fresh_countId, queryVec_fresh_countId, hqV]
      · rcases hp : placeFirstFree os o with _ | os' <;> rw [hp] at h
        · simp at h
        · obtain ⟨-, rfl⟩ := InsRes.ok.inj h
          rw [resolve_mk_shape, setCount_mk]
          refine query_one_place_none _ _ _ _ _ _ _ ?_ hbr (by omega) ?_
          · have hmb := resolve_mb_contains (QuadTree.mk b mb n os' l none)
            rw [bounds_mk] at hmb
            exact hmb
          · exact countId_place_filter hp hor hzero
  | hnode b mb n os l c0 c1 c2 c3 ih0 ih1 ih2 ih3 =>
      intro o t' r hInv hzero hv hrc h
      rw [Inv_node_iff] at hInv
      obtain ⟨⟨hlen, hn⟩, hI0, hI1, hI2, hI3⟩ := hInv
      rw [liveIdCount_mk_some] at hzero
      have hz0 : liveIdCount c0 o.id = 0 := by omega
      have hz1 : liveIdCount c1 o.id = 0 := by omega
      have hz2 : liveIdCount c2 o.id = 0 := by omega
      have hz3 : liveIdCount c3 o.id = 0 := by omega
      have hzos : countId (os.filter fun s => !s.removed) o.id = 0 := by omega
      unfold insert at h
      split at h
      case isFalse => simp at h
      rename_i hguard
      have hbr : b.intersects r = true := intersects_of_intersects_contains hguard hrc
      have hor : o.bounds.intersects r = true := intersects_of_verify_contains hv hrc
      split at h
      · dsimp only at h
        repeat' split at h
        case h_1 =>
          rename_i x0 c0p heq0
          obtain ⟨-, rfl⟩ := InsRes.ok.inj h
          obtain ⟨hqB, hqV⟩ := ih0 hI0 hz0 hv hrc heq0
          refine query_one_node _ _ _ _ _ _ _ _ _ _ _ hbr hzos ?_ ?_
          · rw [hqB, queryBuf_zero hz1, queryBuf_zero hz2, queryBuf_zero hz3]
          · rw [hqV, queryVec_zero hz1, queryVec_zero hz2, queryVec_zero hz3]
        case h_3.h_1 =>
          rename_i x0 c0f heq0f x1 c1p heq1
          obtain ⟨-, rfl⟩ := InsRes.ok.inj h
          obtain rfl := insert_ok_false_eq heq0f
          obtain ⟨hqB, hqV⟩ := ih1 hI1 hz1 hv hrc heq1
          refine query_one_node _ _ _ _ _ _ _ _ _ _ _ hbr hzos ?_ ?_
          · rw [hqB, queryBuf_zero hz0, queryBuf_zero hz2, queryBuf_zero hz3]
          · rw [hqV, queryVec_zero hz0, queryVec_zero hz2, queryVec_zero hz3]
        case h_3.h_3.h_1 =>
          rename_i x0 c0f heq0f x1 c1f heq1f x2 c2p heq2
          obtain ⟨-, rfl⟩ := InsRes.ok.inj h
          obtain rfl := insert_ok_false_eq heq0f
          obtain rfl := insert_ok_false_eq heq1f
          obtain ⟨hqB, hqV⟩ := ih2 hI2 hz2 hv hrc heq2
          refine query_one_node _ _ _ _ _ _ _ _ _ _ _ hbr hzos ?_ ?_
          · rw [hqB, queryBuf_zero hz0, queryBuf_zero hz1, queryBuf_zero hz3]
          · rw [hqV, queryVec_zero hz0, queryVec_zero hz1, queryVec_zero hz3]
        case h_3.h_3.h_3.h_1 =>
          rename_i x0 c0f heq0f x1 c1f heq1f x2 c2f heq2f x3 c3p heq3
          obtain ⟨-, rfl⟩ := InsRes.ok.inj h
          obtain rfl := insert_ok_false_eq heq0f
          obtain rfl := insert_ok_false_eq heq1f
          obtain rfl := insert_ok_false_eq heq2f
          obtain ⟨hqB, hqV⟩ := ih3 hI3 hz3 hv hrc heq3
          refine query_one_node _ _ _ _ _ _ _ _ _ _ _ hbr hzos ?_ ?_
          · rw [hqB, queryBuf_zero hz0, queryBuf_zero hz1, queryBuf_zero hz2]
          · rw [hqV, queryVec_zero hz0, queryVec_zero hz1, queryVec_zero hz2]
        all_goals simp at h
      · rcases hp : placeFirstFree os o with _ | os' <;> rw [hp] at h
        · simp at h
        · obtain ⟨-, rfl⟩ := InsRes.ok.inj h
          rw [resolve_mk_shape, setCount_mk]
          refine query_one_place_some _ _ _ _ _ _ _ _ _ _ _ ?_ hbr (by omega)
            hz0 hz1 hz2 hz3 ?_
          · have hmb := resolve_mb_contains
              (QuadTree.mk b mb n os' l (some (c0, c1, c2, c3)))
            rw [bounds_mk] at hmb
            exact hmb
          · exact countId_place_filter hp hor hzos


/-! ## Operation sequences -/

theorem applyOps_spec {C : Nat} (ops : List Op) :
    ∀ (t₀ t : QuadTree), Inv C t₀ = true → applyOps C t₀ ops = some t →
      Inv C t = true ∧ numLive t + numRem ops = numLive t₀ + numIns ops := by
  induction ops with
  | nil =>
      intro t₀ t h0 h
      obtain rfl := Option.some.inj h
      simp [numIns, numRem, h0]
  | cons op rest ih =>
      intro t₀ t h0 h
      rcases op with o | o
      · unfold applyOps at h
        rcases hins : insert C t₀ o with ⟨acc, t₁⟩ | t₁ <;> rw [hins] at h
        · rcases acc with _ | _
          · simp at h
          · obtain ⟨hI, hN, -⟩ := insert_ok_true_spec t₀ h0 hins
            obtain ⟨hI', hN'⟩ := ih t₁ t hI h
            refine ⟨hI', ?_⟩
            simp only [numIns, numRem]
            omega
        · simp at h
      · unfold applyOps at h
        rcases hrem : remove t₀ o with _ | ⟨acc, t₁⟩ <;> rw [hrem] at h
        · simp at h
        · rcases acc with _ | _
          · simp at h
          · obtain ⟨hI, hN, -⟩ := remove_true_spec t₀ h0 hrem
            obtain ⟨hI', hN'⟩ := ih t₁ t hI h
            refine ⟨hI', ?_⟩
            simp only [numIns, numRem]
            omega

/-! ## Leaf filling (capacity boundary) -/

theorem placeFirstFree_succeeds {os : List QuadTreeObject}
    (h : (os.filter fun s => !s.removed).length < os.length) (o : QuadTreeObject) :
    ∃ os', placeFirstFree os o = some os' := by
  induction os with
  | nil => simp at h
  | cons s rest ih =>
      by_cases hr : s.removed = true
      · exact ⟨storedOf o :: rest, by simp [placeFirstFree, hr, storedOf]⟩
      · have hr' : s.removed = false := by
          cases hq : s.removed
          · rfl
          · exact absurd hq hr
        rw [List.filter_cons] at h
        simp only [hr', Bool.not_false, eq_self_iff_true, if_true,
          List.length_cons] at h
        obtain ⟨os', hos'⟩ := ih (by omega)
        refine ⟨s :: os', ?_⟩
        simp [placeFirstFree, hr', hos']

theorem insert_leaf_step {C : Nat} {b mb : QuadTreeAABB} {n : Nat}
    {os : List QuadTreeObject} {l : Nat} {o : QuadTreeObject}
    (hInv : Inv C (.mk b mb n os l none) = true)
    (hint : b.intersects o.bounds = true) (hn : n < C) :
    ∃ t', insert C (.mk b mb n os l none) o = .ok true t' ∧
      t'.bounds = b ∧ t'.children = none ∧ t'.object_count = n + 1 ∧
      t'.level = l := by
  rw [Inv_leaf_iff] at hInv
  obtain ⟨hlen, hcnt⟩ := hInv
  obtain ⟨os', hp⟩ := @placeFirstFree_succeeds os (by omega) o
  refine ⟨(resolve_max_bounds (.mk b mb n os' l none)).setCount (n + 1), ?_, ?_⟩
  · unfold insert
    rw [if_pos hint, if_neg (by omega), hp]
  · rw [resolve_mk_shape, setCount_mk]
    exact ⟨rfl, rfl, rfl, rfl⟩

theorem insertAll_leaf {C : Nat} (os : List QuadTreeObject) :
    ∀ (t : QuadTree), Inv C t = true → t.children = none →
      (∀ x ∈ os, t.bounds.intersects x.bounds = true) →
      t.object_count + os.length ≤ C →
      ∃ t', insertAll C t os = some t' ∧ Inv C t' = true ∧ t'.children = none ∧
        t'.bounds = t.bounds ∧ t'.object_count = t.object_count + os.length := by
  induction os with
  | nil =>
      intro t hI hch hint hcap
      exact ⟨t, rfl, hI, hch, rfl, by simp⟩
  | cons o rest ih =>
      intro t hI hch hint hcap
      obtain ⟨b, mb, n, osl, l, cs⟩ := t
      simp only [children_mk] at hch
      subst hch
      simp only [bounds_mk, object_count_mk] at *
      obtain ⟨t₁, hins, hb1, hch1, hc1, hl1⟩ :=
        insert_leaf_step hI (hint o (by simp)) (by simp at hcap; omega)
      have hI1 : Inv C t₁ = true := by
        have := @insert_ok_true_spec C _ _ _ hI hins
        exact this.1
      obtain ⟨b1, mb1, n1, os1, l1, cs1⟩ := t₁
      simp only [children_mk] at hch1
      subst hch1
      simp only [bounds_mk, object_count_mk] at hb1 hc1
      subst hb1
      obtain ⟨t', happ, hI', hch', hb', hc'⟩ := ih _ hI1 rfl
        (fun x hx => hint x (by simp [hx]))
        (by simp at hcap ⊢; omega)
      refine ⟨t', ?_, hI', hch', hb', ?_⟩
      · rw [insertAll, List.map_cons, applyOps, hins]
        exact happ
      · simp only [bounds_mk, object_count_mk] at *
        rw [hc', hc1]
        simp [List.length_cons]
        omega

/-! ## Subdivision on overflow -/

theorem insert_full_subdivides {C : Nat} {b mb : QuadTreeAABB} {n : Nat}
    {os : List QuadTreeObject} {l : Nat}
    {cs : Option (QuadTree × QuadTree × QuadTree × QuadTree)} {o : QuadTreeObject}
    (hint : b.intersects o.bounds = true) (hfull : C ≤ n) :
    has_children (resultTree (insert C (.mk b mb n os l cs) o)) = true := by
  unfold insert
  rw [if_pos hint, if_pos hfull]
  rcases cs with _ | ⟨⟨c0, c1, c2, c3⟩⟩
  · simp only [split, children_mk, setChildren, bounds_mk, level_mk]
    repeat' split
    all_goals simp [resultTree, has_children, resolve_children]
  · dsimp only
    repeat' split
    all_goals simp [resultTree, has_children, resolve_children]

theorem insert_on_fresh {C lvl : Nat} {cb : QuadTreeAABB} {o : QuadTreeObject}
    (hC : 0 < C) :
    insert C ((fresh C cb).setLevel lvl) o =
      .ok (insertFresh C cb lvl o).1 (insertFresh C cb lvl o).2 := by
  unfold insert insertFresh
  dsimp only [fresh, setLevel]
  split
  · rw [if_neg (by omega), if_neg (by omega)]
    rcases hp : placeFirstFree (List.replicate C emptySlot) o with _ | os' <;>
      simp [hp, setObjects]
  · rfl

/-! ## Exhausted-quadrant fatal fault -/

theorem insert_exhausted_fatal {C : Nat} {t : QuadTree} {o : QuadTreeObject}
    (hC : 0 < C) (hint : t.bounds.intersects o.bounds = true)
    (hfull : C ≤ t.object_count)
    (hrej : ∀ c ∈ childrenList (split C t), ∃ c', insert C c o = .ok false c') :
    ∃ t', insert C t o = .fatal t' := by
  obtain ⟨b, mb, n, os, l, cs⟩ := t
  simp only [bounds_mk, object_count_mk] at hint hfull
  rcases cs with _ | ⟨⟨c0, c1, c2, c3⟩⟩
  · have hcl : childrenList (split C (QuadTree.mk b mb n os l none)) =
        [(fresh C (mkChildAABB b.left b.top b.x b.y)).setLevel (l + 1),
         (fresh C (mkChildAABB b.x b.top b.right b.y)).setLevel (l + 1),
         (fresh C (mkChildAABB b.x b.y b.right b.bottom)).setLevel (l + 1),
         (fresh C (mkChildAABB b.left b.y b.x b.bottom)).setLevel (l + 1)] := rfl
    rw [hcl] at hrej
    obtain ⟨d0, h0⟩ := hrej ((fresh C (mkChildAABB b.left b.top b.x b.y)).setLevel
      (l + 1)) (by simp)
    obtain ⟨d1, h1⟩ := hrej ((fresh C (mkChildAABB b.x b.top b.right b.y)).setLevel
      (l + 1)) (by simp)
    obtain ⟨d2, h2⟩ := hrej ((fresh C (mkChildAABB b.x b.y b.right b.bottom)).setLevel
      (l + 1)) (by simp)
    obtain ⟨d3, h3⟩ := hrej ((fresh C (mkChildAABB b.left b.y b.x b.bottom)).setLevel
      (l + 1)) (by simp)
    rw [insert_on_fresh hC] at h0 h1 h2 h3
    have hf0 : insertFresh C (mkChildAABB b.left b.top b.x b.y) (l + 1) o =
        (false, (insertFresh C (mkChildAABB b.left b.top b.x b.y) (l + 1) o).2) := by
      rw [← (InsRes.ok.inj h0).1]
    have hf1 : insertFresh C (mkChildAABB b.x b.top b.right b.y) (l + 1) o =
        (false, (insertFresh C (mkChildAABB b.x b.top b.right b.y) (l + 1) o).2) := by
      rw [← (InsRes.ok.inj h1).1]
    have hf2 : insertFresh C (mkChildAABB b.x b.y b.right b.bottom) (l + 1) o =
        (false, (insertFresh C (mkChildAABB b.x b.y b.right b.bottom) (l + 1) o).2) := by
      rw [← (InsRes.ok.inj h2).1]
    have hf3 : insertFresh C (mkChildAABB b.left b.y b.x b.bottom) (l + 1) o =
        (false, (insertFresh C (mkChildAABB b.left b.y b.x b.bottom) (l + 1) o).2) := by
      rw [← (InsRes.ok.inj h3).1]
    rcases hres : insert C (QuadTree.mk b mb n os l none) o with ⟨acc, tr⟩ | tr
    · exfalso
      unfold insert at hres
      rw [if_pos hint, if_pos hfull] at hres
      simp only [split, children_mk, setChildren, bounds_mk, level_mk, fresh,
        setLevel] at hres
      simp only [fresh, setLevel] at hf0 hf1 hf2 hf3
      rw [hf0, hf1, hf2, hf3] at hres
      simp at hres
    · exact ⟨tr, rfl⟩
  · have hcl : childrenList (split C (QuadTree.mk b mb n os l
        (some (c0, c1, c2, c3)))) = [c0, c1, c2, c3] := rfl
    rw [hcl] at hrej
    obtain ⟨d0, h0⟩ := hrej c0 (by simp)
    obtain ⟨d1, h1⟩ := hrej c1 (by simp)
    obtain ⟨d2, h2⟩ := hrej c2 (by simp)
    obtain ⟨d3, h3⟩ := hrej c3 (by simp)
    rcases hres : insert C (QuadTree.mk b mb n os l (some (c0, c1, c2, c3))) o with
      ⟨acc, tr⟩ | tr
    · exfalso
      unfold insert at hres
      rw [if_pos hint, if_pos hfull] at hres
      dsimp only at hres
      rw [h0, h1, h2, h3] at hres
      simp at hres
    · exact ⟨tr, rfl⟩

/-! ## Split geometry -/

theorem tdiv2_between {lo hi s : Int} (h1 : 2 * lo ≤ s) (h2 : s ≤ 2 * hi) :
    lo ≤ s.tdiv 2 ∧ s.tdiv 2 ≤ hi := by
  rcases le_or_lt 0 s with hs | hs
  · rw [Int.tdiv_eq_ediv hs (by omega)]
    omega
  · have hneg : s.tdiv 2 = -((-s).tdiv 2) := by
      rw [Int.neg_tdiv, neg_neg]
    rw [hneg, Int.tdiv_eq_ediv (by omega : (0 : Int) ≤ -s) (by omega)]
    omega

theorem split_children_bounds {C : Nat} {t : QuadTree} (hleafT : t.children = none) :
    ∃ f0 f1 f2 f3 : QuadTree, (split C t).children = some (f0, f1, f2, f3) ∧
      f0.bounds.left = t.bounds.left ∧ f0.bounds.top = t.bounds.top ∧
      f0.bounds.right = t.bounds.x ∧ f0.bounds.bottom = t.bounds.y ∧
      f1.bounds.left = t.bounds.x ∧ f1.bounds.top = t.bounds.top ∧
      f1.bounds.right = t.bounds.right ∧ f1.bounds.bottom = t.bounds.y ∧
      f2.bounds.left = t.bounds.x ∧ f2.bounds.top = t.bounds.y ∧
      f2.bounds.right = t.bounds.right ∧ f2.bounds.bottom = t.bounds.bottom ∧
      f3.bounds.left = t.bounds.left ∧ f3.bounds.top = t.bounds.y ∧
      f3.bounds.right = t.bounds.x ∧ f3.bounds.bottom = t.bounds.bottom := by
  obtain ⟨b, mb, n, os, l, cs⟩ := t
  simp only [children_mk] at hleafT
  subst hleafT
  refine ⟨_, _, _, _, rfl, ?_⟩
  simp [fresh, setLevel, mkChildAABB, QuadTreeAABB.set_center,
    QuadTreeAABB.set_dimensions]

/-! ## Claim theorems -/


set_option maxHeartbeats 2000000 in
/-- C1 (code bug exhibited): in `resolve_max_bounds` the slot loop extends
`max_bounds` by `min`/`max` against the static `bounds` instead of the running
`max_bounds`, so each live slot overwrites the previous slot's contribution.
After inserting an object protruding left of the root (`objSpill`) and then a
second interior object, the recomputed `max_bounds` no longer contains the
first live object's bounds, refuting aggregate-bounds soundness. -/
theorem C1_aggregate_bounds_dropped :
    (applyOps 2 rootTree [.ins objSpill, .ins obj2]).map
      (fun t => (containsAABB t.max_bounds objSpill.bounds, liveIdCount t objSpill.id)) =
      some (false, 1) := by decide

set_option maxHeartbeats 2000000 in
/-- C2 (counterexample): a reachable two-insert state and a query region such
that a stored object is live and strictly intersects the region, yet both the
bounded-buffer query and the dynamic-sequence query with bound checks enabled
return nothing — the buffer mode because the aggregate-bounds slip (C1) made
`max_bounds` under-approximate, the vector mode because it prunes on the
node's static `bounds`. -/
theorem C2_counterexample :
    (applyOps 2 rootTree [.ins objSpill, .ins obj2]).map
      (fun t => (queryBuf t regionSpill true, queryVec t regionSpill true,
                 liveIdCount t objSpill.id)) = some ([], [], 1) ∧
    objSpill.bounds.intersects regionSpill = true := by
  constructor <;> decide

/-- C3 (code bug exhibited): removing from a leaf whose bounds intersect the
argument's bounds but which holds no matching live slot reaches the end of
the C++ `remove` without any `return` statement (undefined behavior, `none`
in the model) instead of returning `false` as the specification states. -/
theorem C3_remove_falls_off_end : remove rootTree obj1 = none := rfl

set_option maxHeartbeats 1000000 in
/-- C4 (counterexample): with capacity 1, insert two objects (the root
subdivides) and then remove both successfully; `get_total_objects` is 0 but
the root is still subdivided (`has_children = true`), because
`remove_empty_nodes` runs only inside the subtree of the node where each
removal matched — the final match was inside a child, so the root is never
merged. -/
theorem C4_counterexample :
    (applyOps 1 rootTree1 [.ins obj1, .ins obj2, .rem obj1, .rem obj2]).map
      (fun t => (t.get_total_objects, t.has_children)) = some (0, true) := by decide

/-- C2 (amended): both query modes are sound — every returned entry is a live
stored slot whose bounds strictly intersect the region — and with bound
checks disabled both return exactly the live intersecting slots in traversal
order; with checks enabled the buffer overload prunes on the cached aggregate
`max_bounds` while the vector overload prunes on the static `bounds`, and
neither is complete (see the counterexample). -/
theorem C2_query_soundness_and_nochecks_exact :
    (∀ (t : QuadTree) (r : QuadTreeAABB) (checks : Bool) (x : QuadTreeObject),
      (x ∈ queryBuf t r checks → x ∈ liveSlots t ∧ x.bounds.intersects r = true) ∧
      (x ∈ queryVec t r checks → x ∈ liveSlots t ∧ x.bounds.intersects r = true)) ∧
    (∀ (C : Nat) (t : QuadTree) (r : QuadTreeAABB), Inv C t = true →
      queryBuf t r false = ((liveSlots t).filter fun s => s.bounds.intersects r) ∧
      queryVec t r false = ((liveSlots t).filter fun s => s.bounds.intersects r)) :=
  ⟨fun t _ _ _ => ⟨fun hx => queryBuf_mem t hx, fun hx => queryVec_mem t hx⟩,
   fun _ t r h => ⟨queryBuf_noChecks t h r, queryVec_noChecks t h r⟩⟩

theorem C2_witness :
    Inv 2 rootTree = true ∧ queryVec rootTree regionSpill false = [] := by
  refine ⟨by decide, ?_⟩
  rw [(C2_query_soundness_and_nochecks_exact.2 2 rootTree regionSpill (by decide)).2]
  decide

/-- C4 (amended): after any sequence of successful operations on a fresh tree
with equally many successful inserts and removes, `get_total_objects` is 0;
subdivided nodes may however remain (see the counterexample). -/
theorem C4_total_zero_after_balanced_ops {C : Nat} {b : QuadTreeAABB} {ops : List Op} {t : QuadTree}
    (happ : applyOps C (fresh C b) ops = some t) (hbal : numIns ops = numRem ops) :
    get_total_objects t = 0 := by
  obtain ⟨hI, hN⟩ := applyOps_spec ops (fresh C b) t (Inv_fresh C b) happ
  rw [total_eq_numLive t hI]
  have h0 : numLive (fresh C b) = 0 := by rw [numLive, liveSlots_fresh]; rfl
  omega

set_option maxHeartbeats 1000000 in
theorem C4_witness :
    (applyOps 2 (fresh 2 rootAABB) [Op.ins obj1, Op.rem obj1]).map get_total_objects =
      some 0 := by
  rcases happ : applyOps 2 (fresh 2 rootAABB) [Op.ins obj1, Op.rem obj1] with _ | t
  · have : (applyOps 2 (fresh 2 rootAABB) [Op.ins obj1, Op.rem obj1]).isSome = true := by
      decide
    rw [happ] at this
    simp at this
  · rw [Option.map_some', C4_total_zero_after_balanced_ops happ (by decide)]

/-- C5: inserting into a node whose bounds intersect the object, whose slots
are full (`object_count = C`), and whose four children (as they exist after
subdivision) all reject the object, throws the `std::out_of_range`
"object position out of range" fault (`InsRes.fatal`) rather than returning
an ordinary `false` or dropping the object. -/
theorem C5_insert_exhausted_fatal {C : Nat} {t : QuadTree} {o : QuadTreeObject}
    (hC : 0 < C) (hint : t.bounds.intersects o.bounds = true)
    (hfull : t.object_count = C)
    (hrej : ∀ c ∈ childrenList (split C t), ∃ c', insert C c o = .ok false c') :
    ∃ t', insert C t o = .fatal t' :=
  insert_exhausted_fatal hC hint (le_of_eq hfull.symm) hrej

theorem C5_witness :
    0 < 1 ∧ fullNode.bounds.intersects (mkObj 10 10 20 20 5).bounds = true ∧
    fullNode.object_count = 1 ∧
    ∃ t', insert 1 fullNode (mkObj 10 10 20 20 5) = .fatal t' := by
  refine ⟨by decide, by decide, rfl, ?_⟩
  apply @C5_insert_exhausted_fatal 1 fullNode (mkObj 10 10 20 20 5) (by decide) (by decide) rfl
  intro c hc
  have : childrenList (split 1 fullNode) = [farNode, farNode, farNode, farNode] := rfl
  rw [this] at hc
  simp only [List.mem_cons, List.not_mem_nil, or_false] at hc
  rcases hc with rfl | rfl | rfl | rfl <;> exact ⟨farNode, rfl⟩

/-- C6: starting from a freshly constructed node with capacity `C` and
inserting `C` objects that intersect its bounds leaves it a leaf, and a
`(C+1)`-th intersecting insertion subdivides it (`has_children` becomes true
in the resulting tree, whether the insertion succeeds or faults). -/
theorem C6_capacity_boundary {C : Nat} {b : QuadTreeAABB} {os : List QuadTreeObject}
    {o : QuadTreeObject} (hC : 0 < C) (hlen : os.length = C)
    (hint : ∀ x ∈ os, b.intersects x.bounds = true)
    (hint2 : b.intersects o.bounds = true) :
    ∃ t, insertAll C (fresh C b) os = some t ∧ t.has_children = false ∧
      has_children (resultTree (insert C t o)) = true := by
  obtain ⟨t, happ, hI, hch, hb, hc⟩ := insertAll_leaf os (fresh C b) (Inv_fresh C b)
    rfl (fun x hx => hint x hx) (by simp [fresh]; omega)
  refine ⟨t, happ, ?_, ?_⟩
  · rw [has_children, hch]
    rfl
  · obtain ⟨b2, mb2, n2, os2, l2, cs2⟩ := t
    simp only [children_mk] at hch
    subst hch
    simp only [bounds_mk] at hb
    simp only [object_count_mk] at hc
    rw [fresh, bounds_mk] at hb
    subst hb
    apply insert_full_subdivides hint2
    rw [fresh, object_count_mk] at hc
    omega

theorem C6_witness :
    0 < 2 ∧ [obj1, obj2].length = 2 ∧
    (∀ x ∈ [obj1, obj2], rootAABB.intersects x.bounds = true) ∧
    rootAABB.intersects obj3.bounds = true ∧
    ∃ t, insertAll 2 (fresh 2 rootAABB) [obj1, obj2] = some t ∧
      t.has_children = false ∧ has_children (resultTree (insert 2 t obj3)) = true := by
  refine ⟨by decide, by decide, by decide, by decide, ?_⟩
  exact C6_capacity_boundary (by decide) (by decide) (by decide) (by decide)

/-- C7: round trip — from any well-formed state holding no live object with
`o`'s id, after a successful insert of a valid-bounds object `o`, querying
any region equal to or containing `o.bounds` (with bound checks on) returns
`o`'s id exactly once in both query modes; after a subsequent successful
removal of `o` by id, the same queries return it zero times. -/
theorem C7_round_trip {C : Nat} {t t1 t2 : QuadTree} {o : QuadTreeObject}
    {r : QuadTreeAABB}
    (hInv : Inv C t = true) (hunique : liveIdCount t o.id = 0)
    (hv : o.bounds.verify = true) (hr : containsAABB r o.bounds = true)
    (hins : insert C t o = .ok true t1)
    (hrem : remove t1 o = some (true, t2)) :
    countId (queryBuf t1 r true) o.id = 1 ∧ countId (queryVec t1 r true) o.id = 1 ∧
    countId (queryBuf t2 r true) o.id = 0 ∧ countId (queryVec t2 r true) o.id = 0 := by
  obtain ⟨hq1, hq2⟩ := insert_query_one t hInv hunique hv hr hins
  obtain ⟨hI1, -, hC1⟩ := insert_ok_true_spec t hInv hins
  obtain ⟨-, -, hC2⟩ := remove_true_spec t1 hI1 hrem
  have h1 : liveIdCount t1 o.id = 1 := by
    have hh := hC1 o.id
    rw [if_pos rfl] at hh
    omega
  have h2 : liveIdCount t2 o.id = 0 := by
    have hh := hC2 o.id
    rw [if_pos rfl] at hh
    omega
  exact ⟨hq1, hq2, queryBuf_zero h2, queryVec_zero h2⟩

set_option maxHeartbeats 2000000 in
theorem C7_witness :
    ∃ t1 t2, insert 2 rootTree obj1 = .ok true t1 ∧
      remove t1 obj1 = some (true, t2) ∧
      countId (queryBuf t1 obj1.bounds true) obj1.id = 1 ∧
      countId (queryVec t1 obj1.bounds true) obj1.id = 1 ∧
      countId (queryBuf t2 obj1.bounds true) obj1.id = 0 ∧
      countId (queryVec t2 obj1.bounds true) obj1.id = 0 := by
  rcases hins : insert 2 rootTree obj1 with ⟨acc, t1⟩ | t1
  · have hacc : resultAccepted (insert 2 rootTree obj1) = true := by decide
    rw [hins] at hacc
    simp only [resultAccepted] at hacc
    subst hacc
    have ht1 : t1 = resultTree (insert 2 rootTree obj1) := by rw [hins]; rfl
    subst ht1
    rcases hrem : remove (resultTree (insert 2 rootTree obj1)) obj1 with _ | ⟨acc2, t2⟩
    · have hok : removeSucceeded (remove (resultTree (insert 2 rootTree obj1)) obj1)
          = true := by decide
      rw [hrem] at hok
      simp [removeSucceeded] at hok
    · rcases acc2 with _ | _
      · have hok : removeSucceeded (remove (resultTree (insert 2 rootTree obj1)) obj1)
            = true := by decide
        rw [hrem] at hok
        simp [removeSucceeded] at hok
      · have hall := @C7_round_trip 2 rootTree (resultTree (insert 2 rootTree obj1)) t2
          obj1 obj1.bounds (by decide) (by decide) (by decide) (by decide) hins hrem
        exact ⟨_, t2, hins, hrem, hall.1, hall.2.1, hall.2.2.1, hall.2.2.2⟩
  · have hacc : resultAccepted (insert 2 rootTree obj1) = true := by decide
    rw [hins] at hacc
    simp [resultAccepted] at hacc

/-- C8: subdividing a leaf with valid bounds whose stored center is the
midpoint of its edges creates the four children in the fixed order top-left,
top-right, bottom-right, bottom-left, cut at the center point; the children
are pairwise non-intersecting under the strict test, their areas sum to the
parent's area, and their closed rectangles cover exactly the parent's closed
rectangle (no gap, no spill). -/
theorem C8_partition_tiling {C : Nat} {t : QuadTree}
    (hleafT : t.children = none) (hvalid : t.bounds.verify = true)
    (hx : t.bounds.x = Int.tdiv (t.bounds.left + t.bounds.right) 2)
    (hy : t.bounds.y = Int.tdiv (t.bounds.top + t.bounds.bottom) 2) :
    ∃ f0 f1 f2 f3 : QuadTree, (split C t).children = some (f0, f1, f2, f3) ∧
      (f0.bounds.left = t.bounds.left ∧ f0.bounds.top = t.bounds.top ∧
        f0.bounds.right = t.bounds.x ∧ f0.bounds.bottom = t.bounds.y) ∧
      (f1.bounds.left = t.bounds.x ∧ f1.bounds.top = t.bounds.top ∧
        f1.bounds.right = t.bounds.right ∧ f1.bounds.bottom = t.bounds.y) ∧
      (f2.bounds.left = t.bounds.x ∧ f2.bounds.top = t.bounds.y ∧
        f2.bounds.right = t.bounds.right ∧ f2.bounds.bottom = t.bounds.bottom) ∧
      (f3.bounds.left = t.bounds.left ∧ f3.bounds.top = t.bounds.y ∧
        f3.bounds.right = t.bounds.x ∧ f3.bounds.bottom = t.bounds.bottom) ∧
      (f0.bounds.intersects f1.bounds = false ∧
       f0.bounds.intersects f2.bounds = false ∧
       f0.bounds.intersects f3.bounds = false ∧
       f1.bounds.intersects f2.bounds = false ∧
       f1.bounds.intersects f3.bounds = false ∧
       f2.bounds.intersects f3.bounds = false) ∧
      area f0.bounds + area f1.bounds + area f2.bounds + area f3.bounds =
        area t.bounds ∧
      (∀ px py : Int, inClosed t.bounds px py ↔
        inClosed f0.bounds px py ∨ inClosed f1.bounds px py ∨
        inClosed f2.bounds px py ∨ inClosed f3.bounds px py) := by
  obtain ⟨f0, f1, f2, f3, hcs, h01, h02, h03, h04, h11, h12, h13, h14,
    h21, h22, h23, h24, h31, h32, h33, h34⟩ := @split_children_bounds C t hleafT
  simp only [QuadTreeAABB.verify, Bool.and_eq_true, decide_eq_true_eq] at hvalid
  have hxb : t.bounds.left ≤ t.bounds.x ∧ t.bounds.x ≤ t.bounds.right := by
    rw [hx]
    exact tdiv2_between (by omega) (by omega)
  have hyb : t.bounds.top ≤ t.bounds.y ∧ t.bounds.y ≤ t.bounds.bottom := by
    rw [hy]
    exact tdiv2_between (by omega) (by omega)
  refine ⟨f0, f1, f2, f3, hcs, ⟨h01, h02, h03, h04⟩, ⟨h11, h12, h13, h14⟩,
    ⟨h21, h22, h23, h24⟩, ⟨h31, h32, h33, h34⟩, ⟨?_, ?_, ?_, ?_, ?_, ?_⟩, ?_, ?_⟩
  · rw [Bool.eq_false_iff]
    intro h
    simp only [QuadTreeAABB.intersects, Bool.and_eq_true, decide_eq_true_eq] at h
    omega
  · rw [Bool.eq_false_iff]
    intro h
    simp only [QuadTreeAABB.intersects, Bool.and_eq_true, decide_eq_true_eq] at h
    omega
  · rw [Bool.eq_false_iff]
    intro h
    simp only [QuadTreeAABB.intersects, Bool.and_eq_true, decide_eq_true_eq] at h
    omega
  · rw [Bool.eq_false_iff]
    intro h
    simp only [QuadTreeAABB.intersects, Bool.and_eq_true, decide_eq_true_eq] at h
    omega
  · rw [Bool.eq_false_iff]
    intro h
    simp only [QuadTreeAABB.intersects, Bool.and_eq_true, decide_eq_true_eq] at h
    omega
  · rw [Bool.eq_false_iff]
    intro h
    simp only [QuadTreeAABB.intersects, Bool.and_eq_true, decide_eq_true_eq] at h
    omega
  · simp only [area, h01, h02, h03, h04, h11, h12, h13, h14, h21, h22, h23, h24,
      h31, h32, h33, h34]
    ring
  · intro px py
    simp only [inClosed, h01, h02, h03, h04, h11, h12, h13, h14, h21, h22, h23,
      h24, h31, h32, h33, h34]
    omega

theorem C8_witness :
    (fresh 2 rootAABB).children = none ∧ rootAABB.verify = true ∧
    rootAABB.x = Int.tdiv (rootAABB.left + rootAABB.right) 2 ∧
    ∃ f0 f1 f2 f3 : QuadTree,
      (split 2 (fresh 2 rootAABB)).children = some (f0, f1, f2, f3) ∧
      area f0.bounds + area f1.bounds + area f2.bounds + area f3.bounds =
        area rootAABB := by
  refine ⟨rfl, by decide, by decide, ?_⟩
  obtain ⟨f0, f1, f2, f3, hcs, hb0, hb1, hb2, hb3, hpw, harea, hcov⟩ :=
    @C8_partition_tiling 2 (fresh 2 rootAABB) rfl (by decide) (by decide) (by decide)
  exact ⟨f0, f1, f2, f3, hcs, harea⟩

/-- C9: `split` leaves the node's slot array, live counter and static bounds
unchanged — no stored object is moved, tombstoned or redistributed — and a
second `split` on an already-subdivided node is a no-op. -/
theorem C9_split_frame (C : Nat) (t : QuadTree) :
    (split C t).objects = t.objects ∧ (split C t).object_count = t.object_count ∧
    (split C t).bounds = t.bounds ∧ split C (split C t) = split C t := by
  obtain ⟨b, mb, n, os, l, cs⟩ := t
  rcases cs with _ | c <;> exact ⟨rfl, rfl, rfl, rfl⟩

/-- C10: whenever `remove` returns `false`, the tree is returned exactly
unchanged — every node's slots, counters, children and cached aggregate
bounds are as before the call. -/
theorem C10_failed_remove_atomic {t t' : QuadTree} {o : QuadTreeObject}
    (h : remove t o = some (false, t')) : t' = t := remove_false_eq t h

theorem C10_witness :
    remove rootTree objFar = some (false, rootTree) ∧ rootTree = rootTree :=
  ⟨rfl, @C10_failed_remove_atomic rootTree rootTree objFar rfl⟩

end QuadTree

end QT
